import Mathlib

/-!
Shallow embedding of the AG-UI ↔ ADK middleware
(`src/integrations/adk-middleware/python/src/ag_ui_adk/`): the event
translator, the session manager, the run orchestrator's streaming loop and
the conversion utilities, together with proofs of the specified properties.

Python values that flow through session state, state deltas, and JSON
serialization are modelled by the `Json` inductive below (floating-point
numbers are out of scope; numbers are modelled as integers).
-/

/-- JSON-compatible value, as produced by the middleware's serialization. -/
inductive Json where
  | null : Json
  | bool (b : Bool) : Json
  | num (n : Int) : Json
  | str (s : String) : Json
  | arr (items : List Json) : Json
  | obj (fields : List (String × Json)) : Json
deriving Repr, Inhabited

mutual

def Json.decEq : (a b : Json) → Decidable (a = b)
  | .null, .null => .isTrue rfl
  | .bool a, .bool b =>
      if h : a = b then .isTrue (by rw [h]) else .isFalse (by simp [h])
  | .num a, .num b =>
      if h : a = b then .isTrue (by rw [h]) else .isFalse (by simp [h])
  | .str a, .str b =>
      if h : a = b then .isTrue (by rw [h]) else .isFalse (by simp [h])
  | .arr a, .arr b =>
      match Json.decEqList a b with
      | .isTrue h => .isTrue (by rw [h])
      | .isFalse h => .isFalse (by simp [h])
  | .obj a, .obj b =>
      match Json.decEqFields a b with
      | .isTrue h => .isTrue (by rw [h])
      | .isFalse h => .isFalse (by simp [h])
  | .null, .bool _ => .isFalse (fun h => Json.noConfusion h)
  | .null, .num _ => .isFalse (fun h => Json.noConfusion h)
  | .null, .str _ => .isFalse (fun h => Json.noConfusion h)
  | .null, .arr _ => .isFalse (fun h => Json.noConfusion h)
  | .null, .obj _ => .isFalse (fun h => Json.noConfusion h)
  | .bool _, .null => .isFalse (fun h => Json.noConfusion h)
  | .bool _, .num _ => .isFalse (fun h => Json.noConfusion h)
  | .bool _, .str _ => .isFalse (fun h => Json.noConfusion h)
  | .bool _, .arr _ => .isFalse (fun h => Json.noConfusion h)
  | .bool _, .obj _ => .isFalse (fun h => Json.noConfusion h)
  | .num _, .null => .isFalse (fun h => Json.noConfusion h)
  | .num _, .bool _ => .isFalse (fun h => Json.noConfusion h)
  | .num _, .str _ => .isFalse (fun h => Json.noConfusion h)
  | .num _, .arr _ => .isFalse (fun h => Json.noConfusion h)
  | .num _, .obj _ => .isFalse (fun h => Json.noConfusion h)
  | .str _, .null => .isFalse (fun h => Json.noConfusion h)
  | .str _, .bool _ => .isFalse (fun h => Json.noConfusion h)
  | .str _, .num _ => .isFalse (fun h => Json.noConfusion h)
  | .str _, .arr _ => .isFalse (fun h => Json.noConfusion h)
  | .str _, .obj _ => .isFalse (fun h => Json.noConfusion h)
  | .arr _, .null => .isFalse (fun h => Json.noConfusion h)
  | .arr _, .bool _ => .isFalse (fun h => Json.noConfusion h)
  | .arr _, .num _ => .isFalse (fun h => Json.noConfusion h)
  | .arr _, .str _ => .isFalse (fun h => Json.noConfusion h)
  | .arr _, .obj _ => .isFalse (fun h => Json.noConfusion h)
  | .obj _, .null => .isFalse (fun h => Json.noConfusion h)
  | .obj _, .bool _ => .isFalse (fun h => Json.noConfusion h)
  | .obj _, .num _ => .isFalse (fun h => Json.noConfusion h)
  | .obj _, .str _ => .isFalse (fun h => Json.noConfusion h)
  | .obj _, .arr _ => .isFalse (fun h => Json.noConfusion h)

def Json.decEqList : (a b : List Json) → Decidable (a = b)
  | [], [] => .isTrue rfl
  | [], _ :: _ => .isFalse (fun h => List.noConfusion h)
  | _ :: _, [] => .isFalse (fun h => List.noConfusion h)
  | x :: xs, y :: ys =>
      match Json.decEq x y with
      | .isFalse h1 => .isFalse (by intro h; injection h; exact h1 (by assumption))
      | .isTrue h1 =>
          match Json.decEqList xs ys with
          | .isTrue h2 => .isTrue (by rw [h1, h2])
          | .isFalse h2 => .isFalse (by intro h; injection h; exact h2 (by assumption))

def Json.decEqFields : (a b : List (String × Json)) → Decidable (a = b)
  | [], [] => .isTrue rfl
  | [], _ :: _ => .isFalse (fun h => List.noConfusion h)
  | x :: xs, y :: ys =>
      match String.decEq x.1 y.1 with
      | .isFalse h0 =>
          .isFalse (by
            intro h
            injection h with h h'
            exact h0 (by rw [h]))
      | .isTrue h0 =>
          match Json.decEq x.2 y.2 with
          | .isFalse h1 =>
              .isFalse (by
                intro h
                injection h with h h'
                exact h1 (by rw [h]))
          | .isTrue h1 =>
              match Json.decEqFields xs ys with
              | .isTrue h2 =>
                  .isTrue (by
                    rw [h2]
                    have : x = y := Prod.ext h0 h1
                    rw [this])
              | .isFalse h2 => .isFalse (by intro h; injection h; exact h2 (by assumption))
  | _ :: _, [] => .isFalse (fun h => List.noConfusion h)

end

instance : DecidableEq Json := Json.decEq

/-- Escape a character for a JSON string literal (quote and backslash). -/
def escapeJsonChar (c : Char) : List Char :=
  if c = '"' ∨ c = '\\' then ['\\', c] else [c]

/-- Render a string as a JSON string literal. -/
def renderJsonString (s : String) : String :=
  "\"" ++ String.mk (s.data.flatMap escapeJsonChar) ++ "\""

/-- Render a `Json` value the way `json.dumps` renders the corresponding
Python value (default separators, `ensure_ascii=False`). -/
def renderJson : Json → String
  | .null => "null"
  | .bool true => "true"
  | .bool false => "false"
  | .num n => toString n
  | .str s => renderJsonString s
  | .arr items =>
      "[" ++ String.intercalate ", " (items.attach.map (fun x => renderJson x.1)) ++ "]"
  | .obj fields =>
      "\x7b" ++
        String.intercalate ", "
          (fields.attach.map (fun kv => renderJsonString kv.1.1 ++ ": " ++ renderJson kv.1.2)) ++
      "\x7d"
decreasing_by
  · have := List.sizeOf_lt_of_mem x.2
    simp only [Json.arr.sizeOf_spec]
    omega
  · have h1 := List.sizeOf_lt_of_mem kv.2
    have h2 : sizeOf kv.1.2 < sizeOf kv.1 := by
      obtain ⟨a, b⟩ := kv.1
      simp only [Prod.mk.sizeOf_spec]
      omega
    simp only [Json.obj.sizeOf_spec]
    omega

/-- Python truthiness of a JSON-compatible value (`bool(value)`). -/
def jsonTruthy : Json → Bool
  | .null => false
  | .bool b => b
  | .num n => n ≠ 0
  | .str s => s ≠ ""
  | .arr items => !items.isEmpty
  | .obj fields => !fields.isEmpty

/-! ### Converters (`utils/converters.py`) -/

/-- A JSON Patch operation as built by `convert_state_to_json_patch`:
`value = none` models a patch dict that has no `"value"` key. -/
structure JsonPatch where
  op : String
  path : String
  value : Option Json
deriving Repr, DecidableEq

/-- `convert_state_to_json_patch`: a `None` value becomes a `remove`
operation without a value; every other value becomes a `replace`. -/
def convert_state_to_json_patch (state_delta : List (String × Json)) : List JsonPatch :=
  state_delta.map (fun kv =>
    if kv.2 = Json.null then
      { op := "remove", path := "/" ++ kv.1, value := none }
    else
      { op := "replace", path := "/" ++ kv.1, value := some kv.2 })

/-- `path.lstrip("/")`: drop every leading slash. -/
def lstripSlash (s : String) : String :=
  String.mk (s.data.dropWhile (fun c => c = '/'))

/-- Insert `(k, v)` into an association list the way Python dict assignment
does: overwrite in place if the key is present, else append. -/
def dictInsert (k : String) (v : Json) : List (String × Json) → List (String × Json)
  | [] => [(k, v)]
  | kv :: rest => if kv.1 = k then (k, v) :: rest else kv :: dictInsert k v rest

/-- The loop body of `convert_json_patch_to_state`: `remove` stores `None`;
`add` and `replace` store the patch's value (`None` when the key is
absent); other operations are ignored. -/
def applyPatchToState (state_delta : List (String × Json)) (patch : JsonPatch) :
    List (String × Json) :=
  let key := lstripSlash patch.path
  if patch.op = "remove" then
    dictInsert key Json.null state_delta
  else if patch.op = "add" ∨ patch.op = "replace" then
    dictInsert key (patch.value.getD Json.null) state_delta
  else
    state_delta

/-- `convert_json_patch_to_state`. -/
def convert_json_patch_to_state (patches : List JsonPatch) : List (String × Json) :=
  patches.foldl applyPatchToState []

/-! ### Input messages and the unseen-suffix computation (`adk_agent.py`) -/

/-- An AG-UI input message, reduced to the fields the orchestrator's
dispatch logic inspects. -/
structure InputMessage where
  id : Option String
  role : String
  content : Option String
  toolCallId : Option String
deriving Repr, DecidableEq

/-- A message stops the reverse walk iff it has an ID that is in the ledger
of processed IDs. -/
def isProcessedHit (processed : List String) (m : InputMessage) : Bool :=
  match m.id with
  | some i => processed.contains i
  | none => false

/-- The reverse collection loop of `_get_unseen_messages`: collect messages
until the first ledger hit, which is excluded. -/
def collectUnseenRev (processed : List String) : List InputMessage → List InputMessage
  | [] => []
  | m :: rest =>
      if isProcessedHit processed m then []
      else m :: collectUnseenRev processed rest

/-- `ADKAgent._get_unseen_messages`: walk the input messages in reverse,
collect until an ID hit in the session ledger, and restore the original
order. -/
def getUnseenMessages (messages : List InputMessage) (processed : List String) :
    List InputMessage :=
  if messages = [] then []
  else (collectUnseenRev processed messages.reverse).reverse

/-! ### Tool-response coercion and serialization (`event_translator.py`) -/

/-- A Python primitive: `str`, `int`, `bool`, `None` (`float` out of scope). -/
inductive PyPrim where
  | pstr (s : String)
  | pint (n : Int)
  | pbool (b : Bool)
  | pnone
deriving Repr, DecidableEq

/-- A reference to a Python value: a primitive, a byte-like value (with its
UTF-8 decoding when `decode()` succeeds), or a pointer to a heap object.
Heap pointers allow cyclic structures. -/
inductive PyRef where
  | prim (p : PyPrim)
  | bytesVal (data : List Nat) (decoded : Option String)
  | obj (oid : Nat)
deriving Repr, DecidableEq

/-- The one-level shape of a non-primitive Python object, one constructor per
branch of `_coerce_tool_response`'s introspection: dataclass instances,
named-tuple-like values (`_asdict`), `model_dump`/`to_dict` providers,
mappings, list/tuple/set/frozenset and other iterables, objects with
non-underscore `vars` entries, and everything else (falls back to `str`).
Mapping and `_asdict` keys are modelled post-`str(k)`. -/
inductive PyObj where
  | dataclassObj (fields : List (String × PyRef))
  | namedTupleObj (fields : List (String × PyRef))
  | dumperObj (dumped : PyRef)
  | mappingObj (entries : List (String × PyRef))
  | iterableObj (items : List PyRef)
  | varsObj (fields : List (String × PyRef))
  | otherObj
deriving Repr, DecidableEq

/-- A heap cell: the object's shape plus its `str(value)` rendering. -/
structure HeapCell where
  shape : PyObj
  strRepr : String
deriving Repr, DecidableEq

/-- The Python heap: object id → cell. -/
abbrev Heap := List (Nat × HeapCell)

/-- Look an object id up in the heap. -/
def heapFind : Heap → Nat → Option HeapCell
  | [], _ => none
  | (k, cell) :: rest, oid => if k = oid then some cell else heapFind rest oid

/-- The set of object ids present in a heap. -/
def heapIds (h : Heap) : Finset Nat := (h.map Prod.fst).toFinset

theorem heapFind_mem_ids {h : Heap} {oid : Nat} {cell : HeapCell}
    (hf : heapFind h oid = some cell) : oid ∈ heapIds h := by
  induction h with
  | nil => simp [heapFind] at hf
  | cons kv rest ih =>
      rw [heapFind] at hf
      by_cases hk : kv.1 = oid
      · simp [heapIds, ← hk]
      · simp only [hk, if_false] at hf
        have := ih hf
        simp [heapIds] at this ⊢
        right
        exact this

theorem sdiff_insert_card_lt {ids visited : Finset Nat} {oid : Nat}
    (hmem : oid ∈ ids) (hnot : oid ∉ visited) :
    (ids \ insert oid visited).card < (ids \ visited).card := by
  apply Finset.card_lt_card
  rw [Finset.ssubset_def]
  constructor
  · exact Finset.sdiff_subset_sdiff (Finset.Subset.refl _) (Finset.subset_insert _ _)
  · intro hsub
    have := hsub (Finset.mem_sdiff.mpr ⟨hmem, hnot⟩)
    simp at this

mutual

/-- `_coerce_tool_response`: recursively convert an arbitrary value into a
JSON-serializable structure.  Primitives pass through; byte-like values are
UTF-8 decoded with a byte-list fallback; the id-set `visited` breaks cycles
by rendering a revisited object as `str(value)`; structured shapes are
expanded field by field; unknown objects fall back to `str(value)`.
A dangling object id (impossible in Python) is rendered as `null`. -/
def coerceToolResponse (h : Heap) : PyRef → Finset Nat → Json
  | .prim (.pstr s), _ => .str s
  | .prim (.pint n), _ => .num n
  | .prim (.pbool b), _ => .bool b
  | .prim .pnone, _ => .null
  | .bytesVal _ (some s), _ => .str s
  | .bytesVal data none, _ => .arr (data.map (fun b => Json.num b))
  | .obj oid, visited =>
      match hfind : heapFind h oid with
      | none => .null
      | some cell =>
          if hv : oid ∈ visited then .str cell.strRepr
          else
            match cell.shape with
            | .dataclassObj fields => .obj (coerceFields h fields (insert oid visited))
            | .namedTupleObj fields => .obj (coerceFields h fields (insert oid visited))
            | .dumperObj dumped => coerceToolResponse h dumped (insert oid visited)
            | .mappingObj entries => .obj (coerceFields h entries (insert oid visited))
            | .iterableObj items => .arr (coerceItems h items (insert oid visited))
            | .varsObj fields =>
                if fields.isEmpty then .str cell.strRepr
                else .obj (coerceFields h fields (insert oid visited))
            | .otherObj => .str cell.strRepr
termination_by r visited => (((heapIds h) \ visited).card, sizeOf r)
decreasing_by
all_goals exact Prod.Lex.left _ _ (sdiff_insert_card_lt (heapFind_mem_ids hfind) hv)

/-- Coerce each value of a field list (dict/dataclass expansion). -/
def coerceFields (h : Heap) : List (String × PyRef) → Finset Nat → List (String × Json)
  | [], _ => []
  | f :: rest, visited =>
      (f.1, coerceToolResponse h f.2 visited) :: coerceFields h rest visited
termination_by l visited => (((heapIds h) \ visited).card, sizeOf l)
decreasing_by
all_goals apply Prod.Lex.right
· obtain ⟨a, b⟩ := f
  simp only [Prod.mk.sizeOf_spec]
  simp
  try omega
· simp
  try omega

/-- Coerce each item of an iterable. -/
def coerceItems (h : Heap) : List PyRef → Finset Nat → List Json
  | [], _ => []
  | it :: rest, visited =>
      coerceToolResponse h it visited :: coerceItems h rest visited
termination_by l visited => (((heapIds h) \ visited).card, sizeOf l)
decreasing_by
all_goals apply Prod.Lex.right
· simp
  try omega
· simp
  try omega

end

/-- `_serialize_tool_response`: coerce, then JSON-encode.  The Python
fallbacks (`json.dumps(str(response))`, then `json.dumps("")`) handle a
`json.dumps` failure; coerced values are always serializable, so in this
embedding `renderJson` is total and the fallbacks are unreachable. -/
def serializeToolResponse (h : Heap) (response : PyRef) : String :=
  renderJson (coerceToolResponse h response ∅)

/-! ### ARP (ADK) events and UIP (AG-UI) events -/

/-- A function-call part payload (`google.genai.types.FunctionCall`):
`args` is the arguments dict. -/
structure ArpFunctionCall where
  id : String
  name : String
  args : List (String × Json)
deriving Repr, DecidableEq

/-- A function-response part payload (`types.FunctionResponse`); the
response value lives in the Python heap model. -/
structure ArpFunctionResponse where
  id : String
  response : PyRef
deriving Repr, DecidableEq

/-- One part of an ARP event's content: text, a function call, or a
function response. -/
structure ArpPart where
  text : Option String := none
  functionCall : Option ArpFunctionCall := none
  functionResponse : Option ArpFunctionResponse := none
deriving Repr, DecidableEq

/-- An ARP (ADK) event, reduced to the attributes the translator and the
orchestrator inspect.  `parts = []` models an event without content;
`finalResponse` is the value of `is_final_response()`. -/
structure ArpEvent where
  id : String
  author : String
  parts : List ArpPart
  partialFlag : Bool := false
  turnComplete : Bool := false
  finalResponse : Bool := false
  finishReason : Option String := none
  longRunningToolIds : List String := []
  stateDelta : List (String × Json) := []
  stateSnapshot : Option Json := none
  customData : Option Json := none
deriving Repr, DecidableEq

/-- A UIP (AG-UI protocol) event. -/
inductive UipEvent where
  | runStarted (threadId runId : String)
  | runFinished (threadId runId : String)
  | runError (message code : String)
  | textMessageStart (messageId role : String)
  | textMessageContent (messageId delta : String)
  | textMessageEnd (messageId : String)
  | toolCallStart (toolCallId toolCallName : String) (parentMessageId : Option String)
  | toolCallArgs (toolCallId delta : String)
  | toolCallEnd (toolCallId : String)
  | toolCallResult (messageId toolCallId content : String)
  | stateDeltaEvt (delta : List JsonPatch)
  | stateSnapshotEvt (snapshot : Json)
  | customEvt (name : String) (value : Json)
deriving Repr, DecidableEq

/-- `adk_event.get_function_calls()`. -/
def ArpEvent.functionCalls (evt : ArpEvent) : List ArpFunctionCall :=
  evt.parts.filterMap (fun p => p.functionCall)

/-- `adk_event.get_function_responses()`. -/
def ArpEvent.functionResponses (evt : ArpEvent) : List ArpFunctionResponse :=
  evt.parts.filterMap (fun p => p.functionResponse)

/-- The truthy text parts of an event (`if part.text:` skips `None` and `""`). -/
def ArpEvent.textParts (evt : ArpEvent) : List String :=
  evt.parts.filterMap (fun p =>
    match p.text with
    | some t => if t = "" then none else some t
    | none => none)

/-! ### The event translator (`EventTranslator`) -/

/-- The mutable state of an `EventTranslator` instance.  `uuidCounter`
models the `uuid.uuid4()` supply deterministically. -/
structure EventTranslatorState where
  activeToolCalls : List String := []
  streamingMessageId : Option String := none
  isStreaming : Bool := false
  currentStreamText : String := ""
  lastStreamedText : Option String := none
  lastStreamedRunId : Option String := none
  longRunningToolIds : List String := []
  uuidCounter : Nat := 0
deriving Repr, DecidableEq

/-- The state of a freshly constructed `EventTranslator`. -/
def initTranslator : EventTranslatorState := {}

/-- A deterministic stand-in for `str(uuid.uuid4())`. -/
def mkUuid (n : Nat) : String := "uuid-" ++ toString n

/-- Dict-style insertion into the `_active_tool_calls` key set. -/
def insertActive (id : String) (l : List String) : List String :=
  if l.contains id then l else l ++ [id]

/-- `EventTranslator.force_close_streaming_message`: emit `TEXT_MESSAGE_END`
iff a stream is open, then clear the streaming state. -/
def forceCloseStreamingMessage (st : EventTranslatorState) :
    List UipEvent × EventTranslatorState :=
  match st.isStreaming, st.streamingMessageId with
  | true, some mid =>
      ([.textMessageEnd mid],
        { st with currentStreamText := "", streamingMessageId := none, isStreaming := false })
  | _, _ => ([], st)

/-- `EventTranslator._translate_text_content`: the streaming state machine
for text, including final-response handling and duplicate suppression. -/
def translateTextContent (evt : ArpEvent) (runId : String) (st : EventTranslatorState) :
    List UipEvent × EventTranslatorState :=
  let textParts := evt.textParts
  if textParts = [] ∧ ¬evt.finalResponse then ([], st)
  else
    let combined := String.join textParts
    let hasFinishReason := (evt.finishReason.map (fun s => decide (s ≠ ""))).getD false
    let shouldSendEnd :=
      (evt.turnComplete && !evt.partialFlag) ||
      (evt.finalResponse && !evt.partialFlag) ||
      (hasFinishReason && st.isStreaming)
    if evt.finalResponse then
      match st.isStreaming, st.streamingMessageId with
      | true, some mid =>
          let st1 :=
            if st.currentStreamText ≠ "" then
              { st with lastStreamedText := some st.currentStreamText,
                        lastStreamedRunId := some runId }
            else st
          ([.textMessageEnd mid],
            { st1 with currentStreamText := "", streamingMessageId := none,
                       isStreaming := false })
      | _, _ =>
          let isDuplicate :=
            st.lastStreamedRunId = some runId ∧ st.lastStreamedText ≠ none ∧
              some combined = st.lastStreamedText
          let stCleared :=
            { st with currentStreamText := "", lastStreamedText := none,
                      lastStreamedRunId := none }
          if isDuplicate then ([], stCleared)
          else
            ([.textMessageStart evt.id "assistant",
              .textMessageContent evt.id combined,
              .textMessageEnd evt.id], stCleared)
    else
      let startPair :=
        if !st.isStreaming then
          let mid := mkUuid st.uuidCounter
          (([UipEvent.textMessageStart mid "assistant"],
            { st with streamingMessageId := some mid, isStreaming := true,
                      currentStreamText := "", uuidCounter := st.uuidCounter + 1 }))
        else (([] : List UipEvent), st)
      let st1 := startPair.2
      let contentPair :=
        if combined ≠ "" then
          (([UipEvent.textMessageContent (st1.streamingMessageId.getD "") combined],
            { st1 with currentStreamText := st1.currentStreamText ++ combined }))
        else (([] : List UipEvent), st1)
      let st2 := contentPair.2
      if shouldSendEnd then
        let st3 :=
          if st2.currentStreamText ≠ "" then
            { st2 with lastStreamedText := some st2.currentStreamText,
                       lastStreamedRunId := some runId }
          else st2
        (startPair.1 ++ contentPair.1 ++ [.textMessageEnd (st2.streamingMessageId.getD "")],
          { st3 with currentStreamText := "", streamingMessageId := none,
                     isStreaming := false })
      else (startPair.1 ++ contentPair.1, st2)

/-- `EventTranslator._translate_function_calls`: per call, track it, emit
`TOOL_CALL_START`, `TOOL_CALL_ARGS` when the args dict is truthy, and
`TOOL_CALL_END`, then untrack it. -/
def translateFunctionCalls :
    List ArpFunctionCall → EventTranslatorState → List UipEvent × EventTranslatorState
  | [], st => ([], st)
  | fc :: rest, st =>
      let st1 := { st with activeToolCalls := insertActive fc.id st.activeToolCalls }
      let events :=
        [UipEvent.toolCallStart fc.id fc.name none] ++
        (if fc.args ≠ [] then [UipEvent.toolCallArgs fc.id (renderJson (Json.obj fc.args))]
         else []) ++
        [UipEvent.toolCallEnd fc.id]
      let st2 := { st1 with activeToolCalls := st1.activeToolCalls.erase fc.id }
      let restPair := translateFunctionCalls rest st2
      (events ++ restPair.1, restPair.2)

/-- `EventTranslator._translate_function_response`: emit a
`TOOL_CALL_RESULT` (fresh message id, serialized content) for each response
whose id is not in `long_running_tool_ids`. -/
def translateFunctionResponse (h : Heap) :
    List ArpFunctionResponse → EventTranslatorState → List UipEvent × EventTranslatorState
  | [], st => ([], st)
  | fr :: rest, st =>
      if st.longRunningToolIds.contains fr.id then
        translateFunctionResponse h rest st
      else
        let ev := UipEvent.toolCallResult (mkUuid st.uuidCounter) fr.id
          (serializeToolResponse h fr.response)
        let restPair :=
          translateFunctionResponse h rest { st with uuidCounter := st.uuidCounter + 1 }
        (ev :: restPair.1, restPair.2)

/-- `EventTranslator._create_state_delta_event`: each `(key, value)` becomes
an `add` patch at path `/{key}`. -/
def createStateDeltaEvent (state_delta : List (String × Json)) : UipEvent :=
  .stateDeltaEvt (state_delta.map (fun kv =>
    { op := "add", path := "/" ++ kv.1, value := some kv.2 }))

/-- `EventTranslator._create_state_snapshot_event`: passthrough. -/
def createStateSnapshotEvent (snapshot : Json) : UipEvent :=
  .stateSnapshotEvt snapshot

/-- `EventTranslator.translate_lro_function_calls`: emit the tool-call
triplet for the first function call whose id is in the event's
`long_running_tool_ids`, recording the id in the translator's list. -/
def translateLroFunctionCalls (evt : ArpEvent) (st : EventTranslatorState) :
    List UipEvent × EventTranslatorState :=
  match evt.functionCalls.find? (fun fc => evt.longRunningToolIds.contains fc.id) with
  | none => ([], st)
  | some fc =>
      let st1 := { st with longRunningToolIds := st.longRunningToolIds ++ [fc.id] }
      let events :=
        [UipEvent.toolCallStart fc.id fc.name none] ++
        (if fc.args ≠ [] then [UipEvent.toolCallArgs fc.id (renderJson (Json.obj fc.args))]
         else []) ++
        [UipEvent.toolCallEnd fc.id]
      (events, { st1 with activeToolCalls := st1.activeToolCalls.erase fc.id })

/-- The text-content stage of `translate`: runs only when the event has
content parts. -/
def translateTextStage (evt : ArpEvent) (runId : String) (st : EventTranslatorState) :
    List UipEvent × EventTranslatorState :=
  if evt.parts ≠ [] then translateTextContent evt runId st
  else (([] : List UipEvent), st)

/-- The function-call stage of `translate`: when the event carries
non-long-running function calls, force-close any open text stream and then
emit the tool-call triplets. -/
def translateCallsStage (evt : ArpEvent) (st : EventTranslatorState) :
    List UipEvent × EventTranslatorState :=
  let fcs := evt.functionCalls
  let nonLro := fcs.filter (fun fc => !evt.longRunningToolIds.contains fc.id)
  if fcs ≠ [] ∧ nonLro ≠ [] then
    let closePair := forceCloseStreamingMessage st
    let emitPair := translateFunctionCalls nonLro closePair.2
    (closePair.1 ++ emitPair.1, emitPair.2)
  else (([] : List UipEvent), st)

/-- The function-response stage of `translate`. -/
def translateRespStage (h : Heap) (evt : ArpEvent) (st : EventTranslatorState) :
    List UipEvent × EventTranslatorState :=
  let frs := evt.functionResponses
  if frs ≠ [] then translateFunctionResponse h frs st
  else (([] : List UipEvent), st)

/-- The trailing stateless emissions of `translate`: state delta, state
snapshot and custom data events. -/
def translateTrailing (evt : ArpEvent) : List UipEvent :=
  (if evt.stateDelta ≠ [] then [createStateDeltaEvent evt.stateDelta] else []) ++
  (match evt.stateSnapshot with
    | some s => [createStateSnapshotEvent s]
    | none => []) ++
  (match evt.customData with
    | some d => if jsonTruthy d then [UipEvent.customEvt "adk_metadata" d] else []
    | none => [])

/-- `EventTranslator.translate`: skip user events; translate text content,
then non-long-running function calls (force-closing any open text stream
first), then function responses, then state delta/snapshot, then custom
data. -/
def EventTranslator.translate (h : Heap) (evt : ArpEvent) (_threadId runId : String)
    (st : EventTranslatorState) : List UipEvent × EventTranslatorState :=
  if evt.author = "user" then ([], st)
  else
    let textPair := translateTextStage evt runId st
    let callsPair := translateCallsStage evt textPair.2
    let respPair := translateRespStage h evt callsPair.2
    (textPair.1 ++ callsPair.1 ++ respPair.1 ++ translateTrailing evt, respPair.2)

/-- Feed a sequence of ARP events through `translate` on one translator
instance, concatenating the outputs. -/
def runTranslate (h : Heap) (threadId runId : String) :
    List ArpEvent → EventTranslatorState → List UipEvent × EventTranslatorState
  | [], st => ([], st)
  | evt :: rest, st =>
      let headPair := EventTranslator.translate h evt threadId runId st
      let restPair := runTranslate h threadId runId rest headPair.2
      (headPair.1 ++ restPair.1, restPair.2)

/-! ### Queue draining and run framing (`adk_agent.py`) -/

/-- One observable step of `_stream_events`' consumer loop: a queue item
arrived within the 1-second wait (`got`/`sentinel`), or the wait timed out
with the given staleness / task-done / residual-queue observations. -/
inductive StreamStep where
  | got (e : UipEvent)
  | sentinel
  | timeoutStale
  | timeoutDone (residual : Bool)
  | timeoutIdle
deriving Repr, DecidableEq

/-- `ADKAgent._stream_events`: yield queue items until the sentinel, a
stale-execution timeout (which yields `RUN_ERROR(EXECUTION_TIMEOUT)`), or a
completed task with an empty queue. -/
def streamEvents : List StreamStep → List UipEvent
  | [] => []
  | .got e :: rest => e :: streamEvents rest
  | .sentinel :: _ => []
  | .timeoutStale :: _ => [.runError "Execution timed out" "EXECUTION_TIMEOUT"]
  | .timeoutDone true :: rest => streamEvents rest
  | .timeoutDone false :: _ => []
  | .timeoutIdle :: rest => streamEvents rest

/-- Whether a consumer trace reaches one of the loop's `break` conditions
(otherwise the Python loop would still be waiting on the queue). -/
def traceBreaks : List StreamStep → Bool
  | [] => false
  | .got _ :: rest => traceBreaks rest
  | .sentinel :: _ => true
  | .timeoutStale :: _ => true
  | .timeoutDone true :: rest => traceBreaks rest
  | .timeoutDone false :: _ => true
  | .timeoutIdle :: rest => traceBreaks rest

/-- `ADKAgent._start_new_execution`'s emitted event sequence: `RUN_STARTED`,
then the drained queue events, then `RUN_FINISHED`; when the body raises
after `k` drained events (`excAt = some k`), the except-branch yields
`RUN_ERROR(EXECUTION_ERROR)` instead of `RUN_FINISHED`. -/
def startNewExecutionEvents (threadId runId errMsg : String)
    (trace : List StreamStep) (excAt : Option Nat) : List UipEvent :=
  match excAt with
  | some k =>
      .runStarted threadId runId ::
        ((streamEvents trace).take k ++ [.runError errMsg "EXECUTION_ERROR"])
  | none =>
      .runStarted threadId runId ::
        (streamEvents trace ++ [.runFinished threadId runId])

/-! ### Session manager (`session_manager.py`) -/

/-- `session_key.split(":", 1)` on the underlying characters: `none` when
the string has no colon (in which case tuple unpacking raises). -/
def splitFirstColonAux : List Char → Option (List Char × List Char)
  | [] => none
  | c :: rest =>
      if c = ':' then some ([], rest)
      else (splitFirstColonAux rest).map (fun p => (c :: p.1, p.2))

/-- `app_name, session_id = session_key.split(":", 1)`. -/
def splitSessionKey (s : String) : Option (String × String) :=
  (splitFirstColonAux s.data).map (fun p => (String.mk p.1, String.mk p.2))

/-- `SessionManager._make_session_key`. -/
def makeSessionKey (appName sessionId : String) : String :=
  appName ++ ":" ++ sessionId

/-- An ADK session as exposed by the session store. -/
structure AdkSession where
  id : String
  appName : String
  userId : String
  lastUpdateTime : Int
  state : List (String × Json)
deriving Repr, DecidableEq

/-- Association-list lookup on a session's state dict. -/
def stateGet (state : List (String × Json)) (key : String) : Option Json :=
  match state with
  | [] => none
  | kv :: rest => if kv.1 = key then some kv.2 else stateGet rest key

/-- `session.state.get("pending_tool_calls", []) if session.state else []`. -/
def pendingToolCalls (session : AdkSession) : Json :=
  if session.state.isEmpty then Json.arr []
  else (stateGet session.state "pending_tool_calls").getD (Json.arr [])

/-- The injected session store's backing table, keyed by
`(session_id, app_name, user_id)`. -/
abbrev SessionStore := List ((String × String × String) × AdkSession)

/-- `session_service.get_session(...)`. -/
def storeGet (store : SessionStore) (sessionId appName userId : String) :
    Option AdkSession :=
  match store with
  | [] => none
  | e :: rest =>
      if e.1 = (sessionId, appName, userId) then some e.2
      else storeGet rest sessionId appName userId

/-- `session_service.delete_session(...)`. -/
def storeDelete (store : SessionStore) (sessionId appName userId : String) :
    SessionStore :=
  store.filter (fun e => ¬e.1 = (sessionId, appName, userId))

/-- The `SessionManager`'s in-memory tracking plus the injected store. -/
structure SessionManagerState where
  sessionKeys : List String
  userSessions : List (String × List String)
  processedMessageIds : List (String × List String)
  store : SessionStore
deriving Repr, DecidableEq

/-- `SessionManager._untrack_session`: discard the key, drop its ledger,
remove it from the user's key set and drop the user entry if now empty. -/
def untrackSession (key userId : String) (sm : SessionManagerState) :
    SessionManagerState :=
  { sm with
    sessionKeys := sm.sessionKeys.erase key,
    processedMessageIds := sm.processedMessageIds.filter (fun kv => ¬kv.1 = key),
    userSessions :=
      (sm.userSessions.map (fun uv =>
        if uv.1 = userId then (uv.1, uv.2.erase key) else uv)).filter
        (fun uv => ¬(uv.1 = userId ∧ uv.2 = [])) }

/-- `SessionManager._delete_session` (memory archiving has no effect on the
modelled state): delete from the store, then untrack the key derived from
the session's own fields. -/
def deleteSession (session : AdkSession) (sm : SessionManagerState) :
    SessionManagerState :=
  untrackSession (makeSessionKey session.appName session.id) session.userId
    { sm with store := storeDelete sm.store session.id session.appName session.userId }

/-- The `for uid, keys in self._user_sessions.items()` search for the
user owning a session key (first match in insertion order). -/
def findUserForKey (userSessions : List (String × List String)) (key : String) :
    Option String :=
  (userSessions.find? (fun uv => uv.2.contains key)).map (fun uv => uv.1)

/-- One iteration of `_cleanup_expired_sessions`' loop body for a tracked
session key: skip keys with no owner; untrack keys whose session is gone;
delete sessions older than the timeout unless `pending_tool_calls` is
truthy (HITL preservation). -/
def cleanupKey (timeout now : Int) (sm : SessionManagerState) (key : String) :
    SessionManagerState :=
  match splitSessionKey key with
  | none => sm
  | some (appName, sessionId) =>
      match findUserForKey sm.userSessions key with
      | none => sm
      | some userId =>
          match storeGet sm.store sessionId appName userId with
          | some session =>
              if now - session.lastUpdateTime > timeout then
                if jsonTruthy (pendingToolCalls session) then sm
                else deleteSession session sm
              else sm
          | none => untrackSession key userId sm

/-- `SessionManager._cleanup_expired_sessions`: fold the loop body over a
copy of the tracked key set. -/
def cleanupExpiredSessions (timeout now : Int) (sm : SessionManagerState) :
    SessionManagerState :=
  sm.sessionKeys.foldl (cleanupKey timeout now) sm

/-! ### `SessionManager.update_session_state` (C8) -/

/-- The synthetic event appended to apply a state delta. -/
structure SyntheticStateEvent where
  invocationId : String
  author : String
  stateDelta : List (String × Json)
  timestamp : Int
deriving Repr, DecidableEq

/-- `SessionManager.update_session_state`: the store calls are injected as
`Except`-valued capabilities (`.error` models a raised exception, which the
method catches and converts to `False`). -/
def updateSessionState
    (getSession : Except String (Option AdkSession))
    (appendEvent : AdkSession → SyntheticStateEvent → Except String Unit)
    (state_updates : List (String × Json)) (now : Int) : Bool :=
  match getSession with
  | .error _ => false
  | .ok none => false
  | .ok (some session) =>
      if state_updates.isEmpty then false
      else
        match appendEvent session
            { invocationId := "state_update_" ++ toString now,
              author := "system",
              stateDelta := state_updates,
              timestamp := now } with
        | .error _ => false
        | .ok _ => true

/-! ### `SessionManager` singleton protocol (C10) -/

/-- The constructor arguments of `SessionManager.__init__`; the injected
services are modelled by identity tokens. -/
structure SMArgs where
  sessionServiceId : Nat := 0
  memoryServiceId : Option Nat := none
  sessionTimeoutSeconds : Int := 1200
  cleanupIntervalSeconds : Int := 300
  maxSessionsPerUser : Option Nat := none
  autoCleanup : Bool := true
deriving Repr, DecidableEq

/-- A `SessionManager` object: an identity (`uid`), its `_initialized`
flag, and the configuration captured at first initialization. -/
structure SMInstance where
  uid : Nat
  initializedFlag : Bool
  config : Option SMArgs
deriving Repr, DecidableEq

/-- The class-level singleton cell (`SessionManager._instance`) plus a
supply of fresh object identities. -/
structure SMClass where
  inst : Option SMInstance
  nextUid : Nat
deriving Repr, DecidableEq

/-- The class state before any construction. -/
def smClassInit : SMClass := { inst := none, nextUid := 0 }

/-- `SessionManager.__new__`: return the existing instance or allocate. -/
def smNew (cls : SMClass) : SMClass × SMInstance :=
  match cls.inst with
  | some m => (cls, m)
  | none =>
      let m : SMInstance := { uid := cls.nextUid, initializedFlag := false, config := none }
      ({ inst := some m, nextUid := cls.nextUid + 1 }, m)

/-- `SessionManager.__init__`: a no-op when already initialized, otherwise
record the configuration and set `_initialized`. -/
def smInit (m : SMInstance) (args : SMArgs) : SMInstance :=
  if m.initializedFlag then m
  else { m with initializedFlag := true, config := some args }

/-- `SessionManager(...)`: `__new__` then `__init__`. -/
def smConstruct (cls : SMClass) (args : SMArgs) : SMClass × SMInstance :=
  let p := smNew cls
  let m := smInit p.2 args
  ({ p.1 with inst := some m }, m)

/-- `SessionManager.get_instance(**kwargs)` is `cls(**kwargs)`. -/
def smGetInstance (cls : SMClass) (args : SMArgs) : SMClass × SMInstance :=
  smConstruct cls args

/-- `SessionManager.reset_instance`: clear the singleton cell. -/
def smResetInstance (cls : SMClass) : SMClass := { cls with inst := none }

/-! ### Derived predicates and scenario constructions used by the theorems -/

/-- Whether a UIP event is `TOOL_CALL_START`, `TOOL_CALL_ARGS` or
`TOOL_CALL_END` (note: `TOOL_CALL_RESULT` is not one of these). -/
def isToolCallEvt : UipEvent → Bool
  | .toolCallStart _ _ _ => true
  | .toolCallArgs _ _ => true
  | .toolCallEnd _ => true
  | _ => false

/-- Whether a UIP event opens or closes a text message stream. -/
def isTextBoundaryEvt : UipEvent → Bool
  | .textMessageStart _ _ => true
  | .textMessageEnd _ => true
  | _ => false

/-- Whether a UIP event is a `RUN_ERROR`. -/
def isRunErrorEvt : UipEvent → Bool
  | .runError _ _ => true
  | _ => false

/-- Whether a UIP event is a `RUN_FINISHED`. -/
def isRunFinishedEvt : UipEvent → Bool
  | .runFinished _ _ => true
  | _ => false

/-- Scan an event list, checking that every `TOOL_CALL_START/ARGS/END`
occurs while no text message stream is open (streams are sequential, so
this is exactly "no tool-call event between a `TEXT_MESSAGE_START` and its
matching `TEXT_MESSAGE_END`"). -/
def toolGuardOk : Bool → List UipEvent → Bool
  | _, [] => true
  | opened, e :: rest =>
      match e with
      | .textMessageStart _ _ => toolGuardOk true rest
      | .textMessageEnd _ => toolGuardOk false rest
      | .toolCallStart _ _ _ => !opened && toolGuardOk opened rest
      | .toolCallArgs _ _ => !opened && toolGuardOk opened rest
      | .toolCallEnd _ => !opened && toolGuardOk opened rest
      | _ => toolGuardOk opened rest

/-- The open/closed stream bit after scanning an event list. -/
def scanOpen : Bool → List UipEvent → Bool
  | b, [] => b
  | b, e :: rest =>
      scanOpen
        (match e with
          | .textMessageStart _ _ => true
          | .textMessageEnd _ => false
          | _ => b) rest

/-- A content part holding only text. -/
def mkTextPart (t : String) : ArpPart := { text := some t }

/-- A partial streaming text chunk, as produced by SSE streaming. -/
def mkChunkEvent (eid t : String) : ArpEvent :=
  { id := eid, author := "model", parts := [mkTextPart t], partialFlag := true }

/-- A stream-closing text event (`turn_complete` and not partial, but not
an `is_final_response` event). -/
def mkCloseEvent (eid t : String) : ArpEvent :=
  { id := eid, author := "model", parts := [mkTextPart t], turnComplete := true }

/-- An `is_final_response` ARP event carrying the complete text. -/
def mkFinalEvent (eid t : String) : ArpEvent :=
  { id := eid, author := "model", parts := [mkTextPart t], turnComplete := true,
    finalResponse := true }

/-- Whether a string starts with a slash. -/
def startsWithSlash (s : String) : Bool :=
  match s.data with
  | '/' :: _ => true
  | _ => false

/-- Expected `TOOL_CALL_RESULT` events for a list of non-long-running
responses, per the spec: response id, fresh message id, serialized
content. -/
def expectedToolResults (h : Heap) (counter : Nat) :
    List ArpFunctionResponse → List UipEvent
  | [] => []
  | r :: rest =>
      .toolCallResult (mkUuid counter) r.id (serializeToolResponse h r.response) ::
        expectedToolResults h (counter + 1) rest

/-- Store well-formedness: each stored session's identity fields agree with
the key it is stored under. -/
def StoreWf (store : SessionStore) : Prop :=
  ∀ e ∈ store, e.2.id = e.1.1 ∧ e.2.appName = e.1.2.1 ∧ e.2.userId = e.1.2.2

/-- Invariant carried by the translator: an open stream always has a
message id. -/
def TransWf (st : EventTranslatorState) : Prop :=
  st.isStreaming = true → st.streamingMessageId ≠ none

/-! ## Theorems -/

theorem collectUnseenRev_spec (processed : List String) (l : List InputMessage) :
    ∃ rest, l = collectUnseenRev processed l ++ rest ∧
      (∀ m ∈ collectUnseenRev processed l, isProcessedHit processed m = false) ∧
      (rest = [] ∨ ∃ hit rest2, rest = hit :: rest2 ∧ isProcessedHit processed hit = true) := by
  induction l with
  | nil => exact ⟨[], rfl, by simp [collectUnseenRev], Or.inl rfl⟩
  | cons m rest ih =>
      by_cases hhit : isProcessedHit processed m = true
      · refine ⟨m :: rest, ?_, ?_, Or.inr ⟨m, rest, rfl, hhit⟩⟩
        · simp [collectUnseenRev, hhit]
        · simp [collectUnseenRev, hhit]
      · obtain ⟨r2, heq, hall, hlast⟩ := ih
        have hfalse : isProcessedHit processed m = false := by
          simpa using hhit
        refine ⟨r2, ?_, ?_, hlast⟩
        · simp only [collectUnseenRev, hfalse, Bool.false_eq_true, if_false,
            List.cons_append, List.cons.injEq, true_and]
          exact heq
        · intro x hx
          simp only [collectUnseenRev, hfalse, Bool.false_eq_true, if_false,
            List.mem_cons] at hx
          rcases hx with h | h
          · subst h; exact hfalse
          · exact hall x h

/-- C5: the unseen-suffix computation walks the messages in reverse,
collects each message until the first message whose ID is in the ledger,
and returns the collected messages in original order; a message with no ID
is never a ledger hit, so it never stops the walk and is always collected
when reached. -/
theorem C5_get_unseen_messages (messages : List InputMessage) (processed : List String) :
    ∃ seen, messages = seen ++ getUnseenMessages messages processed ∧
      (∀ m ∈ getUnseenMessages messages processed, isProcessedHit processed m = false) ∧
      (seen = [] ∨
        ∃ front hit, seen = front ++ [hit] ∧ isProcessedHit processed hit = true) := by
  by_cases hnil : messages = []
  · subst hnil
    exact ⟨[], by simp [getUnseenMessages], by simp [getUnseenMessages], Or.inl rfl⟩
  · obtain ⟨rest, heq, hall, hlast⟩ := collectUnseenRev_spec processed messages.reverse
    have hunseen : getUnseenMessages messages processed =
        (collectUnseenRev processed messages.reverse).reverse := by
      simp [getUnseenMessages, hnil]
    refine ⟨rest.reverse, ?_, ?_, ?_⟩
    · have := congrArg List.reverse heq
      simp only [List.reverse_reverse, List.reverse_append] at this
      rw [hunseen]
      exact this
    · intro m hm
      rw [hunseen, List.mem_reverse] at hm
      exact hall m hm
    · rcases hlast with h | ⟨hit, rest2, hr, hhit⟩
      · left; simp [h]
      · right
        exact ⟨rest2.reverse, hit, by simp [hr], hhit⟩

theorem C5_witness :
    ∃ seen,
      [({ id := some "a", role := "user", content := some "x", toolCallId := none } :
          InputMessage),
        { id := none, role := "user", content := some "y", toolCallId := none }] =
        seen ++ getUnseenMessages
          [{ id := some "a", role := "user", content := some "x", toolCallId := none },
            { id := none, role := "user", content := some "y", toolCallId := none }]
          ["a"] ∧
      (∀ m ∈ getUnseenMessages
          [{ id := some "a", role := "user", content := some "x", toolCallId := none },
            { id := none, role := "user", content := some "y", toolCallId := none }]
          ["a"], isProcessedHit ["a"] m = false) ∧
      (seen = [] ∨
        ∃ front hit, seen = front ++ [hit] ∧ isProcessedHit ["a"] hit = true) :=
  C5_get_unseen_messages _ _

/-- C8: `update_session_state` returns true exactly when the session is
found, the delta is non-empty and the synthetic state-delta event is
appended successfully; a missing session, an empty delta, or a store
exception each yield false (the exception never propagates). -/
theorem C8_update_session_state
    (getSession : Except String (Option AdkSession))
    (appendEvent : AdkSession → SyntheticStateEvent → Except String Unit)
    (updates : List (String × Json)) (now : Int) :
    (updateSessionState getSession appendEvent updates now = true ↔
      ∃ s, getSession = .ok (some s) ∧ updates ≠ [] ∧
        appendEvent s
          { invocationId := "state_update_" ++ toString now, author := "system",
            stateDelta := updates, timestamp := now } = .ok ()) ∧
    (getSession = .ok none → updateSessionState getSession appendEvent updates now = false) ∧
    (updates = [] → updateSessionState getSession appendEvent updates now = false) ∧
    (∀ msg, getSession = .error msg →
      updateSessionState getSession appendEvent updates now = false) := by
  unfold updateSessionState
  cases getSession with
  | error e => simp
  | ok os =>
      cases os with
      | none => simp
      | some s =>
          by_cases hupd : updates = []
          · subst hupd
            simp
          · have hne : updates.isEmpty = false := by
              simpa [List.isEmpty_iff] using hupd
            rcases happ : appendEvent s
                { invocationId := "state_update_" ++ toString now, author := "system",
                  stateDelta := updates, timestamp := now } with e | u
            · simp [hne, happ, hupd]
            · cases u
              simp [hne, happ, hupd]

theorem C8_witness :
    (updateSessionState (.ok none) (fun _ _ => .ok ()) [("k", Json.num 1)] 0 = false) ∧
    (updateSessionState
        (.ok (some ⟨"s", "a", "u", 0, []⟩))
        (fun _ _ => .ok ()) [("k", Json.num 1)] 0 = true) :=
  ⟨(C8_update_session_state (.ok none) (fun _ _ => .ok ()) [("k", Json.num 1)] 0).2.1 rfl,
    ((C8_update_session_state
        (.ok (some ⟨"s", "a", "u", 0, []⟩))
        (fun _ _ => .ok ()) [("k", Json.num 1)] 0).1).mpr
      ⟨_, rfl, by decide, rfl⟩⟩

/-- C10: the session manager is a singleton with configuration frozen at
first initialization: once an initialized instance exists, every further
construction (directly or via `get_instance`) returns that same instance
and ignores its arguments; the first construction records its arguments;
after `reset_instance` a construction uses the new arguments. -/
theorem C10_singleton (cls : SMClass) (m : SMInstance) (args args2 : SMArgs)
    (hm : cls.inst = some m) (hi : m.initializedFlag = true) :
    smConstruct cls args = (cls, m) ∧
    smGetInstance cls args = (cls, m) ∧
    (smConstruct smClassInit args).2.config = some args ∧
    (smConstruct smClassInit args).2.initializedFlag = true ∧
    (smConstruct (smResetInstance cls) args2).2.config = some args2 := by
  obtain ⟨inst0, nextUid0⟩ := cls
  simp only at hm
  subst hm
  simp [smConstruct, smNew, smInit, smGetInstance, smClassInit, smResetInstance, hi]

theorem C10_witness :
    smConstruct ⟨some ⟨0, true, some {}⟩, 1⟩ { sessionTimeoutSeconds := 99 } =
      (⟨some ⟨0, true, some {}⟩, 1⟩, ⟨0, true, some {}⟩) ∧
    (smConstruct (smResetInstance ⟨some ⟨0, true, some {}⟩, 1⟩)
        { sessionTimeoutSeconds := 77 }).2.config = some { sessionTimeoutSeconds := 77 } :=
  ⟨(C10_singleton ⟨some ⟨0, true, some {}⟩, 1⟩ ⟨0, true, some {}⟩ { sessionTimeoutSeconds := 99 }
      { sessionTimeoutSeconds := 77 } rfl rfl).1,
    (C10_singleton ⟨some ⟨0, true, some {}⟩, 1⟩ ⟨0, true, some {}⟩ { sessionTimeoutSeconds := 99 }
      { sessionTimeoutSeconds := 77 } rfl rfl).2.2.2.2⟩

theorem lstripSlash_slash_append (k : String) (h : startsWithSlash k = false) :
    lstripSlash ("/" ++ k) = k := by
  obtain ⟨d⟩ := k
  simp only [startsWithSlash] at h
  show lstripSlash ⟨'/' :: d⟩ = ⟨d⟩
  simp only [lstripSlash, List.dropWhile]
  cases d with
  | nil => rfl
  | cons c rest =>
      by_cases hc : c = '/'
      · subst hc; simp at h
      · simp [List.dropWhile, hc]

theorem dictInsert_append (k : String) (v : Json) (acc : List (String × Json))
    (h : ∀ kv ∈ acc, kv.1 ≠ k) : dictInsert k v acc = acc ++ [(k, v)] := by
  induction acc with
  | nil => rfl
  | cons kv rest ih =>
      have hne : kv.1 ≠ k := h kv (by simp)
      simp only [dictInsert, hne, if_false]
      rw [ih (fun kv2 h2 => h kv2 (by simp [h2]))]
      simp

theorem convert_state_cons (k : String) (v : Json) (rest : List (String × Json)) :
    convert_state_to_json_patch ((k, v) :: rest) =
      (if v = Json.null then
        ({ op := "remove", path := "/" ++ k, value := none } : JsonPatch)
      else
        { op := "replace", path := "/" ++ k, value := some v }) ::
      convert_state_to_json_patch rest := by
  simp [convert_state_to_json_patch]

theorem convert_roundtrip_go (delta : List (String × Json))
    (hkeys : ∀ kv ∈ delta, startsWithSlash kv.1 = false)
    (hnodup : (delta.map Prod.fst).Nodup) :
    ∀ acc : List (String × Json), (∀ kv ∈ delta, ∀ kv2 ∈ acc, kv2.1 ≠ kv.1) →
    (convert_state_to_json_patch delta).foldl applyPatchToState acc = acc ++ delta := by
  induction delta with
  | nil => intro acc _; simp [convert_state_to_json_patch]
  | cons kv rest ih =>
      intro acc hdisj
      obtain ⟨k, v⟩ := kv
      have hk : startsWithSlash k = false := hkeys (k, v) (by simp)
      have hstrip : lstripSlash ("/" ++ k) = k := lstripSlash_slash_append k hk
      have hnotmem : ∀ kv2 ∈ acc, kv2.1 ≠ k := fun kv2 h2 => hdisj (k, v) (by simp) kv2 h2
      have hstep : applyPatchToState acc
          (if v = Json.null then
            { op := "remove", path := "/" ++ k, value := none }
          else
            { op := "replace", path := "/" ++ k, value := some v }) = acc ++ [(k, v)] := by
        by_cases hv : v = Json.null
        · rw [if_pos hv]
          simp [applyPatchToState, hstrip, hv,
            dictInsert_append k Json.null acc hnotmem]
        · rw [if_neg hv]
          have hro : ("replace" : String) ≠ "remove" := by decide
          simp [applyPatchToState, hstrip, hro,
            dictInsert_append k v acc hnotmem]
      rw [convert_state_cons, List.foldl_cons, hstep]
      rw [ih (fun kv2 h2 => hkeys kv2 (by simp [h2]))
            (by simpa using hnodup.of_cons) (acc ++ [(k, v)]) ?_]
      · simp
      · intro kv2 h2 kv3 h3
        rcases List.mem_append.mp h3 with h3 | h3
        · exact hdisj kv2 (by simp [h2]) kv3 h3
        · simp only [List.mem_singleton] at h3
          subst h3
          simp only [List.map_cons, List.nodup_cons] at hnodup
          intro heq
          apply hnodup.1
          rw [show k = kv2.1 from heq]
          exact List.mem_map.mpr ⟨kv2, h2, rfl⟩

theorem patches_fold_go (patches : List JsonPatch)
    (hadd : ∀ p ∈ patches, p.op = "add")
    (hnodup : (patches.map (fun p => lstripSlash p.path)).Nodup) :
    ∀ acc : List (String × Json),
      (∀ p ∈ patches, ∀ kv ∈ acc, kv.1 ≠ lstripSlash p.path) →
      patches.foldl applyPatchToState acc =
        acc ++ patches.map (fun p => (lstripSlash p.path, p.value.getD Json.null)) := by
  induction patches with
  | nil => intro acc _; simp
  | cons p rest ih =>
      intro acc hdisj
      have hop : p.op = "add" := hadd p (by simp)
      have hstep : applyPatchToState acc p =
          acc ++ [(lstripSlash p.path, p.value.getD Json.null)] := by
        have hne : ¬p.op = "remove" := by rw [hop]; decide
        simp [applyPatchToState, hne, hop,
          dictInsert_append _ _ acc (fun kv h2 => hdisj p (by simp) kv h2)]
      rw [List.foldl_cons, hstep,
        ih (fun p2 h2 => hadd p2 (by simp [h2])) (by simpa using hnodup.of_cons)
          (acc ++ [(lstripSlash p.path, p.value.getD Json.null)]) ?_]
      · simp
      · intro p2 h2 kv h3
        rcases List.mem_append.mp h3 with h3 | h3
        · exact hdisj p2 (by simp [h2]) kv h3
        · simp only [List.mem_singleton] at h3
          subst h3
          simp only [List.map_cons, List.nodup_cons] at hnodup
          intro heq
          apply hnodup.1
          rw [show lstripSlash p.path = lstripSlash p2.path from heq]
          exact List.mem_map.mpr ⟨p2, h2, rfl⟩

theorem convert_state_of_pairs (patches : List JsonPatch)
    (hp : ∀ p ∈ patches, "/" ++ lstripSlash p.path = p.path ∧
      ∃ v, p.value = some v ∧ v ≠ Json.null) :
    convert_state_to_json_patch
        (patches.map (fun p => (lstripSlash p.path, p.value.getD Json.null))) =
      patches.map (fun p => { p with op := "replace" }) := by
  induction patches with
  | nil => simp [convert_state_to_json_patch]
  | cons p rest ih =>
      obtain ⟨hpath, v, hval, hvnull⟩ := hp p (by simp)
      simp only [List.map_cons, convert_state_cons, hval, Option.getD_some]
      rw [if_neg hvnull]
      rw [ih (fun p2 h2 => hp p2 (by simp [h2]))]
      congr 1
      obtain ⟨op0, path0, value0⟩ := p
      simp only at hpath hval
      simp [hpath, hval]

/-- C9 counterexample: round-tripping a single `op:"add"` patch with a
scalar value through `convert_json_patch_to_state` and back yields an
`op:"replace"` patch, not the original `add` patch, so the conversion is
not reversible for `add` patches as claimed. -/
theorem C9_counterexample :
    convert_state_to_json_patch (convert_json_patch_to_state
        [{ op := "add", path := "/x", value := some (Json.num 1) }]) =
      [{ op := "replace", path := "/x", value := some (Json.num 1) }] ∧
    convert_state_to_json_patch (convert_json_patch_to_state
        [{ op := "add", path := "/x", value := some (Json.num 1) }]) ≠
      [{ op := "add", path := "/x", value := some (Json.num 1) }] := by
  constructor
  · decide
  · decide

/-- C9 amended: converting a state delta (keys not beginning with `/`,
distinct) to patches and back restores the delta exactly; converting a list
of `op:"add"` patches (canonical single-slash paths, distinct keys,
non-null values) to a state delta and back yields the same paths and
values but with op `"replace"` substituted for `"add"` — the operation
name itself is not preserved. -/
theorem C9_patch_roundtrip :
    (∀ delta : List (String × Json),
        (∀ kv ∈ delta, startsWithSlash kv.1 = false) →
        (delta.map Prod.fst).Nodup →
        convert_json_patch_to_state (convert_state_to_json_patch delta) = delta) ∧
    (∀ patches : List JsonPatch,
        (∀ p ∈ patches, p.op = "add" ∧ "/" ++ lstripSlash p.path = p.path ∧
          ∃ v, p.value = some v ∧ v ≠ Json.null) →
        (patches.map (fun p => lstripSlash p.path)).Nodup →
        convert_state_to_json_patch (convert_json_patch_to_state patches) =
          patches.map (fun p => { p with op := "replace" })) := by
  constructor
  · intro delta hkeys hnodup
    unfold convert_json_patch_to_state
    rw [convert_roundtrip_go delta hkeys hnodup [] (by simp)]
    simp
  · intro patches hp hnodup
    unfold convert_json_patch_to_state
    rw [patches_fold_go patches (fun p hmem => (hp p hmem).1) hnodup [] (by simp)]
    simp only [List.nil_append]
    exact convert_state_of_pairs patches (fun p hmem => (hp p hmem).2)

theorem C9_patch_roundtrip_witness :
    convert_json_patch_to_state (convert_state_to_json_patch
        [("x", Json.num 1), ("y", Json.null)]) = [("x", Json.num 1), ("y", Json.null)] ∧
    convert_state_to_json_patch (convert_json_patch_to_state
        [{ op := "add", path := "/x", value := some (Json.num 1) }]) =
      [{ op := "replace", path := "/x", value := some (Json.num 1) }] :=
  ⟨C9_patch_roundtrip.1 [("x", Json.num 1), ("y", Json.null)] (by decide) (by decide),
    C9_patch_roundtrip.2 [{ op := "add", path := "/x", value := some (Json.num 1) }]
      (by
        intro p hp
        simp only [List.mem_singleton] at hp
        subst hp
        exact ⟨rfl, by decide, Json.num 1, rfl, by decide⟩)
      (by decide)⟩

/-- C1 counterexample: when the background producer hits the
background-error path (`RUN_ERROR(BACKGROUND_EXECUTION_ERROR)` queued, then
the sentinel), the sub-execution's emitted sequence contains both a
`RUN_ERROR` and a `RUN_FINISHED`, refuting "never both". -/
theorem C1_counterexample :
    ((startNewExecutionEvents "t" "r" ""
        [.got (.runError "boom" "BACKGROUND_EXECUTION_ERROR"), .sentinel] none).countP
      isRunErrorEvt = 1) ∧
    ((startNewExecutionEvents "t" "r" ""
        [.got (.runError "boom" "BACKGROUND_EXECUTION_ERROR"), .sentinel] none).countP
      isRunFinishedEvt = 1) ∧
    (startNewExecutionEvents "t" "r" ""
        [.got (.runError "boom" "BACKGROUND_EXECUTION_ERROR"), .sentinel] none).getLast? =
      some (.runFinished "t" "r") := by
  refine ⟨?_, ?_, ?_⟩ <;> decide

/-- C1 amended: every sub-execution's event sequence begins with
`RUN_STARTED`, and its final event is exactly one of `RUN_FINISHED` (when
`_start_new_execution`'s body completes, including the timeout and
background-error paths, whose `RUN_ERROR` events are followed by a
terminal `RUN_FINISHED`) or `RUN_ERROR(EXECUTION_ERROR)` (when the body
raises). -/
theorem C1_run_framing (threadId runId errMsg : String) (trace : List StreamStep)
    (excAt : Option Nat) (hb : traceBreaks trace = true) :
    (startNewExecutionEvents threadId runId errMsg trace excAt).head? =
      some (.runStarted threadId runId) ∧
    (startNewExecutionEvents threadId runId errMsg trace excAt).getLast? =
      some (match excAt with
            | some _ => .runError errMsg "EXECUTION_ERROR"
            | none => .runFinished threadId runId) := by
  cases excAt with
  | some k =>
      refine ⟨rfl, ?_⟩
      show (UipEvent.runStarted threadId runId ::
        ((streamEvents trace).take k ++ [.runError errMsg "EXECUTION_ERROR"])).getLast? = _
      rw [← List.cons_append, List.getLast?_concat]
  | none =>
      refine ⟨rfl, ?_⟩
      show (UipEvent.runStarted threadId runId ::
        (streamEvents trace ++ [.runFinished threadId runId])).getLast? = _
      rw [← List.cons_append, List.getLast?_concat]

theorem C1_run_framing_witness :
    traceBreaks [StreamStep.sentinel] = true ∧
    ((startNewExecutionEvents "t" "r" "" [StreamStep.sentinel] none).head? =
      some (.runStarted "t" "r") ∧
    (startNewExecutionEvents "t" "r" "" [StreamStep.sentinel] none).getLast? =
      some (.runFinished "t" "r")) :=
  ⟨rfl, C1_run_framing "t" "r" "" [StreamStep.sentinel] none rfl⟩

theorem mem_expectedToolResults (h : Heap) :
    ∀ (l : List ArpFunctionResponse) (c : Nat) (e : UipEvent),
      e ∈ expectedToolResults h c l →
      ∃ r ∈ l, ∃ mid, e = .toolCallResult mid r.id (serializeToolResponse h r.response) := by
  intro l
  induction l with
  | nil => intro c e he; simp [expectedToolResults] at he
  | cons r rest ih =>
      intro c e he
      simp only [expectedToolResults, List.mem_cons] at he
      rcases he with he | he
      · exact ⟨r, by simp, mkUuid c, he⟩
      · obtain ⟨r2, h2, mid, heq⟩ := ih (c + 1) e he
        exact ⟨r2, by simp [h2], mid, heq⟩

theorem expectedToolResults_exists (h : Heap) :
    ∀ (l : List ArpFunctionResponse) (c : Nat) (r : ArpFunctionResponse), r ∈ l →
      ∃ e ∈ expectedToolResults h c l, ∃ mid,
        e = .toolCallResult mid r.id (serializeToolResponse h r.response) := by
  intro l
  induction l with
  | nil => intro c r hr; simp at hr
  | cons r0 rest ih =>
      intro c r hr
      rcases List.mem_cons.mp hr with hr | hr
      · subst hr
        exact ⟨_, by simp [expectedToolResults], mkUuid c, rfl⟩
      · obtain ⟨e, he, mid, heq⟩ := ih (c + 1) r hr
        exact ⟨e, by simp [expectedToolResults, he], mid, heq⟩

theorem translateFunctionResponse_eq_expected (h : Heap) :
    ∀ (responses : List ArpFunctionResponse) (st : EventTranslatorState),
      (translateFunctionResponse h responses st).1 =
        expectedToolResults h st.uuidCounter
          (responses.filter (fun r => !st.longRunningToolIds.contains r.id)) ∧
      (translateFunctionResponse h responses st).2.longRunningToolIds =
        st.longRunningToolIds := by
  intro responses
  induction responses with
  | nil => intro st; exact ⟨rfl, rfl⟩
  | cons r rest ih =>
      intro st
      by_cases hc : st.longRunningToolIds.contains r.id
      · simp only [translateFunctionResponse, hc, if_pos, List.filter_cons,
          Bool.not_true, ite_true, ite_false]
        have := ih st
        simpa [hc] using this
      · have hcf : st.longRunningToolIds.contains r.id = false := by
          simpa using hc
        simp only [translateFunctionResponse, hcf, Bool.false_eq_true, if_false,
          List.filter_cons, Bool.not_false, if_true]
        have := ih { st with uuidCounter := st.uuidCounter + 1 }
        simp only [expectedToolResults, hcf]
        constructor
        · simp only [List.cons.injEq, true_and]
          exact this.1
        · exact this.2

/-- C6: `_translate_function_response` emits a `TOOL_CALL_RESULT` event
(response id, fresh message id, serialized content) for exactly those
responses whose id is not in the translator's `long_running_tool_ids`;
responses with a long-running id produce no event. -/
theorem C6_tool_call_result (h : Heap) (st : EventTranslatorState)
    (responses : List ArpFunctionResponse) :
    ((translateFunctionResponse h responses st).1 =
      expectedToolResults h st.uuidCounter
        (responses.filter (fun r => !st.longRunningToolIds.contains r.id))) ∧
    (∀ r ∈ responses,
      ((∃ e ∈ (translateFunctionResponse h responses st).1,
          ∃ mid, e = .toolCallResult mid r.id (serializeToolResponse h r.response)) ↔
        r.id ∉ st.longRunningToolIds)) := by
  have hmain := translateFunctionResponse_eq_expected h responses st
  refine ⟨hmain.1, ?_⟩
  intro r hr
  constructor
  · rintro ⟨e, he, mid, heq⟩
    rw [hmain.1] at he
    obtain ⟨r2, h2, mid2, heq2⟩ := mem_expectedToolResults h _ _ e he
    have h2f := List.mem_filter.mp h2
    have hid : r2.id = r.id := by
      rw [heq2] at heq
      exact (UipEvent.toolCallResult.injEq _ _ _ _ _ _).mp heq |>.2.1
    intro hmem
    have h2f2 := (List.mem_filter.mp h2).2
    simp only [Bool.not_eq_true', Bool.not_eq_false] at h2f2
    rw [hid] at h2f2
    simp [hmem] at h2f2
  · intro hmem
    have hrf : r ∈ responses.filter (fun r => !st.longRunningToolIds.contains r.id) :=
      List.mem_filter.mpr ⟨hr, by simp [hmem]⟩
    obtain ⟨e, he, mid, heq⟩ := expectedToolResults_exists h _ st.uuidCounter r hrf
    rw [← hmain.1] at he
    exact ⟨e, he, mid, heq⟩

theorem C6_witness :
    ((translateFunctionResponse [] [⟨"lro1", .prim .pnone⟩, ⟨"backend1", .prim (.pint 7)⟩]
        { initTranslator with longRunningToolIds := ["lro1"] }).1 =
      expectedToolResults [] 0
        ([⟨"lro1", .prim .pnone⟩, ⟨"backend1", .prim (.pint 7)⟩].filter
          (fun r => !(["lro1"] : List String).contains r.id))) ∧
    ((∃ e ∈ (translateFunctionResponse []
          [⟨"lro1", .prim .pnone⟩, ⟨"backend1", .prim (.pint 7)⟩]
          { initTranslator with longRunningToolIds := ["lro1"] }).1,
        ∃ mid, e = .toolCallResult mid "backend1"
          (serializeToolResponse [] (.prim (.pint 7)))) ∧
      ¬∃ e ∈ (translateFunctionResponse []
          [⟨"lro1", .prim .pnone⟩, ⟨"backend1", .prim (.pint 7)⟩]
          { initTranslator with longRunningToolIds := ["lro1"] }).1,
        ∃ mid, e = .toolCallResult mid "lro1"
          (serializeToolResponse [] (.prim .pnone))) := by
  have hthm := C6_tool_call_result []
    { initTranslator with longRunningToolIds := ["lro1"] }
    [⟨"lro1", .prim .pnone⟩, ⟨"backend1", .prim (.pint 7)⟩]
  refine ⟨hthm.1, ?_, ?_⟩
  · exact (hthm.2 ⟨"backend1", .prim (.pint 7)⟩ (by simp)).mpr (by decide)
  · intro hex
    have := (hthm.2 ⟨"lro1", .prim .pnone⟩ (by simp)).mp hex
    exact this (by decide)

/-- C7: tool-response serialization is total — for every value (cyclic
heaps included) it returns the JSON rendering of some JSON value, so it
never raises and always yields a JSON string; primitives pass through
unchanged, byte-like values UTF-8 decode with a byte-list fallback, and a
revisited object id (cycle) is rendered as its string representation. -/
theorem C7_serialize_never_raises :
    (∀ (h : Heap) (response : PyRef), ∃ j : Json,
      serializeToolResponse h response = renderJson j) ∧
    (∀ (h : Heap) (vis : Finset Nat) (s : String),
      coerceToolResponse h (.prim (.pstr s)) vis = .str s) ∧
    (∀ (h : Heap) (vis : Finset Nat) (n : Int),
      coerceToolResponse h (.prim (.pint n)) vis = .num n) ∧
    (∀ (h : Heap) (vis : Finset Nat) (b : Bool),
      coerceToolResponse h (.prim (.pbool b)) vis = .bool b) ∧
    (∀ (h : Heap) (vis : Finset Nat),
      coerceToolResponse h (.prim .pnone) vis = .null) ∧
    (∀ (h : Heap) (vis : Finset Nat) (data : List Nat) (s : String),
      coerceToolResponse h (.bytesVal data (some s)) vis = .str s) ∧
    (∀ (h : Heap) (vis : Finset Nat) (data : List Nat),
      coerceToolResponse h (.bytesVal data none) vis =
        .arr (data.map (fun b => Json.num b))) ∧
    (∀ (h : Heap) (oid : Nat) (cell : HeapCell) (vis : Finset Nat),
      heapFind h oid = some cell → oid ∈ vis →
      coerceToolResponse h (.obj oid) vis = .str cell.strRepr) := by
  refine ⟨?_, ?_, ?_, ?_, ?_, ?_, ?_, ?_⟩
  · exact fun h r => ⟨coerceToolResponse h r ∅, rfl⟩
  · intro h vis s; rw [coerceToolResponse]
  · intro h vis n; rw [coerceToolResponse]
  · intro h vis b; rw [coerceToolResponse]
  · intro h vis; rw [coerceToolResponse]
  · intro h vis data s; rw [coerceToolResponse]
  · intro h vis data; rw [coerceToolResponse]
  · intro h oid cell vis hfind hv
    rw [coerceToolResponse]
    split
    · simp_all
    · rename_i cell2 heq
      rw [hfind] at heq
      injection heq with heq
      subst heq
      simp [hv]

theorem C7_witness :
    heapFind [(0, ⟨.iterableObj [.obj 0], "<cyclic list>"⟩)] 0 =
      some ⟨.iterableObj [.obj 0], "<cyclic list>"⟩ ∧
    (0 : Nat) ∈ ({0} : Finset Nat) ∧
    coerceToolResponse [(0, ⟨.iterableObj [.obj 0], "<cyclic list>"⟩)] (.obj 0) {0} =
      .str "<cyclic list>" ∧
    (∃ j, serializeToolResponse [(0, ⟨.iterableObj [.obj 0], "<cyclic list>"⟩)]
      (.obj 0) = renderJson j) :=
  ⟨rfl, by decide,
    C7_serialize_never_raises.2.2.2.2.2.2.2
      [(0, ⟨.iterableObj [.obj 0], "<cyclic list>"⟩)] 0
      ⟨.iterableObj [.obj 0], "<cyclic list>"⟩ {0} rfl (by decide),
    C7_serialize_never_raises.1 _ _⟩

theorem storeGet_mem {store : SessionStore} {sid app uid : String} {s : AdkSession}
    (h : storeGet store sid app uid = some s) : ((sid, app, uid), s) ∈ store := by
  induction store with
  | nil => simp [storeGet] at h
  | cons e rest ih =>
      rw [storeGet] at h
      by_cases hk : e.1 = (sid, app, uid)
      · rw [if_pos hk] at h
        injection h with h
        have : ((sid, app, uid), s) = e := by
          obtain ⟨e1, e2⟩ := e
          simp only at hk h
          rw [hk, h]
        rw [this]
        exact List.mem_cons_self _ _
      · rw [if_neg hk] at h
        exact List.mem_cons_of_mem _ (ih h)

theorem store_assoc_unique {store : SessionStore}
    (hnodup : (store.map Prod.fst).Nodup)
    {k : String × String × String} {a b : AdkSession}
    (ha : (k, a) ∈ store) (hb : (k, b) ∈ store) : a = b := by
  induction store with
  | nil => simp at ha
  | cons e rest ih =>
      simp only [List.map_cons, List.nodup_cons] at hnodup
      rcases List.mem_cons.mp ha with ha | ha <;>
        rcases List.mem_cons.mp hb with hb | hb
      · rw [← ha] at hb
        injection hb with h1 h2
        exact h2.symm
      · exfalso
        apply hnodup.1
        rw [show e.1 = k from congrArg Prod.fst ha.symm]
        exact List.mem_map.mpr ⟨(k, b), hb, rfl⟩
      · exfalso
        apply hnodup.1
        rw [show e.1 = k from congrArg Prod.fst hb.symm]
        exact List.mem_map.mpr ⟨(k, a), ha, rfl⟩
      · exact ih hnodup.2 ha hb

theorem cleanupKey_store_sublist (timeout now : Int) (sm : SessionManagerState)
    (key : String) : ((cleanupKey timeout now sm key).store).Sublist sm.store := by
  unfold cleanupKey
  rcases h1 : splitSessionKey key with _ | ⟨app, sid⟩ <;> simp only [h1]
  · exact List.Sublist.refl _
  · rcases h2 : findUserForKey sm.userSessions key with _ | uid <;> simp only [h2]
    · exact List.Sublist.refl _
    · rcases h3 : storeGet sm.store sid app uid with _ | session <;> simp only [h3]
      · simp [untrackSession]
      · split_ifs with h4 h5
        · exact List.Sublist.refl _
        · simp only [deleteSession, untrackSession, storeDelete]
          exact List.filter_sublist _
        · exact List.Sublist.refl _

theorem cleanupKey_preserve (timeout now : Int) (sm : SessionManagerState)
    (key appName sessionId userId : String) (session : AdkSession)
    (hsplit : splitSessionKey key = some (appName, sessionId))
    (hfind : findUserForKey sm.userSessions key = some userId)
    (hget : storeGet sm.store sessionId appName userId = some session)
    (htruthy : jsonTruthy (pendingToolCalls session) = true) :
    cleanupKey timeout now sm key = sm := by
  unfold cleanupKey
  simp only [hsplit, hfind, hget]
  by_cases h4 : now - session.lastUpdateTime > timeout
  · rw [if_pos h4, if_pos htruthy]
  · rw [if_neg h4]

theorem cleanupKey_delete_char (timeout now : Int) (sm : SessionManagerState)
    (key : String) (e : (String × String × String) × AdkSession)
    (hwf : StoreWf sm.store) (hnodup : (sm.store.map Prod.fst).Nodup)
    (he : e ∈ sm.store) (hout : e ∉ (cleanupKey timeout now sm key).store) :
    now - e.2.lastUpdateTime > timeout ∧
      jsonTruthy (pendingToolCalls e.2) = false := by
  unfold cleanupKey at hout
  rcases h1 : splitSessionKey key with _ | ⟨app, sid⟩ <;> simp only [h1] at hout
  · exact absurd he hout
  · rcases h2 : findUserForKey sm.userSessions key with _ | uid <;>
      simp only [h2] at hout
    · exact absurd he hout
    · rcases h3 : storeGet sm.store sid app uid with _ | session <;>
        simp only [h3] at hout
      · simp only [untrackSession] at hout
        exact absurd he hout
      · split_ifs at hout with h4 h5
        · exact absurd he hout
        · simp only [deleteSession, untrackSession, storeDelete] at hout
          have hkey : e.1 = (session.id, session.appName, session.userId) := by
            by_contra hne
            exact hout (List.mem_filter.mpr ⟨he, by simpa using hne⟩)
          have hmem := storeGet_mem h3
          obtain ⟨hid, happ, huid⟩ := hwf _ hmem
          simp only at hid happ huid
          have htriple : e.1 = (sid, app, uid) := by
            rw [hkey, hid, happ, huid]
          have hval : e.2 = session := by
            have he2 : ((sid, app, uid), e.2) ∈ sm.store := by
              have hee : e = ((sid, app, uid), e.2) := by
                obtain ⟨e1, e2⟩ := e
                simp only at htriple
                rw [htriple]
              rw [← hee]
              exact he
            exact store_assoc_unique hnodup he2 hmem
          rw [hval]
          refine ⟨h4, ?_⟩
          simpa using h5
        · exact absurd he hout

theorem cleanup_fold_preserve (timeout now : Int) (keys : List String) :
    ∀ (sm : SessionManagerState), StoreWf sm.store →
      (sm.store.map Prod.fst).Nodup →
      ∀ e ∈ sm.store, jsonTruthy (pendingToolCalls e.2) = true →
      e ∈ (keys.foldl (cleanupKey timeout now) sm).store := by
  induction keys with
  | nil => intro sm _ _ e he _; simpa using he
  | cons key rest ih =>
      intro sm hwf hnodup e he htruthy
      rw [List.foldl_cons]
      have hsub := cleanupKey_store_sublist timeout now sm key
      have he' : e ∈ (cleanupKey timeout now sm key).store := by
        by_contra hne
        have := cleanupKey_delete_char timeout now sm key e hwf hnodup he hne
        rw [htruthy] at this
        exact absurd this.2 (by simp)
      exact ih (cleanupKey timeout now sm key)
        (fun e2 he2 => hwf e2 (hsub.subset he2))
        (hnodup.sublist (hsub.map Prod.fst))
        e he' htruthy

/-- C4: when a tracked key's session holds a truthy `pending_tool_calls`
list, the cleanup iteration for that key leaves the manager completely
unchanged (no deletion, no untracking), regardless of age; an entry removed
from the store by any cleanup iteration must have exceeded the timeout with
a falsy `pending_tool_calls`; and a full cleanup pass preserves every
stored session with pending tool calls. -/
theorem C4_hitl_preservation :
    (∀ (timeout now : Int) (sm : SessionManagerState)
        (key appName sessionId userId : String) (session : AdkSession),
      splitSessionKey key = some (appName, sessionId) →
      findUserForKey sm.userSessions key = some userId →
      storeGet sm.store sessionId appName userId = some session →
      jsonTruthy (pendingToolCalls session) = true →
      cleanupKey timeout now sm key = sm) ∧
    (∀ (timeout now : Int) (sm : SessionManagerState) (key : String)
        (e : (String × String × String) × AdkSession),
      StoreWf sm.store → (sm.store.map Prod.fst).Nodup →
      e ∈ sm.store → e ∉ (cleanupKey timeout now sm key).store →
      now - e.2.lastUpdateTime > timeout ∧
        jsonTruthy (pendingToolCalls e.2) = false) ∧
    (∀ (timeout now : Int) (sm : SessionManagerState)
        (e : (String × String × String) × AdkSession),
      StoreWf sm.store → (sm.store.map Prod.fst).Nodup →
      e ∈ sm.store → jsonTruthy (pendingToolCalls e.2) = true →
      e ∈ (cleanupExpiredSessions timeout now sm).store) :=
  ⟨cleanupKey_preserve,
    cleanupKey_delete_char,
    fun timeout now sm e hwf hnodup he ht =>
      cleanup_fold_preserve timeout now sm.sessionKeys sm hwf hnodup e he ht⟩

theorem C4_witness :
    (cleanupKey 10 1000
        ⟨["app:s1"], [("u1", ["app:s1"])], [],
          [(("s1", "app", "u1"),
            ⟨"s1", "app", "u1", 0, [("pending_tool_calls", Json.arr [Json.str "c1"])]⟩)]⟩
        "app:s1" =
      ⟨["app:s1"], [("u1", ["app:s1"])], [],
        [(("s1", "app", "u1"),
          ⟨"s1", "app", "u1", 0, [("pending_tool_calls", Json.arr [Json.str "c1"])]⟩)]⟩) ∧
    ((("s1", "app", "u1"),
        (⟨"s1", "app", "u1", 0, [("pending_tool_calls", Json.arr [Json.str "c1"])]⟩ :
          AdkSession)) ∈
      (cleanupExpiredSessions 10 1000
        ⟨["app:s1"], [("u1", ["app:s1"])], [],
          [(("s1", "app", "u1"),
            ⟨"s1", "app", "u1", 0,
              [("pending_tool_calls", Json.arr [Json.str "c1"])]⟩)]⟩).store) :=
  ⟨C4_hitl_preservation.1 10 1000 _ "app:s1" "app" "s1" "u1" _ (by decide) (by decide) rfl
      (by decide),
    C4_hitl_preservation.2.2 10 1000 _ _ (by unfold StoreWf; decide) (by decide)
      (by decide) (by decide)⟩

theorem string_append_ne_empty (a b : String) (h : a ≠ "") : a ++ b ≠ "" := by
  intro hc
  apply h
  have hd := congrArg String.data hc
  rw [String.data_append] at hd
  have h2 := List.append_eq_nil.mp hd
  cases a with
  | mk d =>
      rw [show d = [] from h2.1]

theorem string_foldl_append (l : List String) :
    ∀ a b : String, l.foldl (· ++ ·) (a ++ b) = a ++ l.foldl (· ++ ·) b := by
  induction l with
  | nil => intro a b; rfl
  | cons s rest ih =>
      intro a b
      simp only [List.foldl_cons]
      rw [String.append_assoc, ih]

theorem string_foldl_ne_empty (l : List String) (a : String) (h : a ≠ "") :
    l.foldl (· ++ ·) a ≠ "" := by
  induction l generalizing a with
  | nil => exact h
  | cons s rest ih =>
      simp only [List.foldl_cons]
      exact ih (a ++ s) (string_append_ne_empty a s h)

theorem string_join_nil : String.join [] = "" := rfl

theorem string_join_cons (s : String) (l : List String) :
    String.join (s :: l) = s ++ String.join l := by
  simp only [String.join, List.foldl_cons]
  rw [String.empty_append, show l.foldl (· ++ ·) s = l.foldl (· ++ ·) (s ++ "") by
    rw [String.append_empty], string_foldl_append]

theorem translate_text_only (h : Heap) (evt : ArpEvent) (threadId runId : String)
    (st : EventTranslatorState)
    (hauthor : ¬evt.author = "user") (hparts : evt.parts ≠ [])
    (hnofc : evt.functionCalls = []) (hnofr : evt.functionResponses = [])
    (hdelta : evt.stateDelta = []) (hsnap : evt.stateSnapshot = none)
    (hcustom : evt.customData = none) :
    EventTranslator.translate h evt threadId runId st = translateTextContent evt runId st := by
  simp [EventTranslator.translate, translateTextStage, translateCallsStage,
    translateRespStage, translateTrailing, hauthor, hparts, hnofc, hnofr, hdelta,
    hsnap, hcustom]

theorem textParts_single (eid t : String) (ht : t ≠ "") :
    (mkChunkEvent eid t).textParts = [t] ∧ (mkCloseEvent eid t).textParts = [t] ∧
    (mkFinalEvent eid t).textParts = [t] := by
  refine ⟨?_, ?_, ?_⟩ <;>
    simp [ArpEvent.textParts, mkChunkEvent, mkCloseEvent, mkFinalEvent, mkTextPart, ht]

theorem chunk_step (h : Heap) (threadId runId eid t : String) (st : EventTranslatorState)
    (ht : t ≠ "") (hs : st.isStreaming = false) :
    EventTranslator.translate h (mkChunkEvent eid t) threadId runId st =
      ([.textMessageStart (mkUuid st.uuidCounter) "assistant",
        .textMessageContent (mkUuid st.uuidCounter) t],
       { st with streamingMessageId := some (mkUuid st.uuidCounter), isStreaming := true,
                 currentStreamText := t, uuidCounter := st.uuidCounter + 1 }) := by
  rw [translate_text_only h _ threadId runId st (by simp [mkChunkEvent]) (by simp [mkChunkEvent])
    (by simp [ArpEvent.functionCalls, mkChunkEvent, mkTextPart])
    (by simp [ArpEvent.functionResponses, mkChunkEvent, mkTextPart])
    (by simp [mkChunkEvent]) (by simp [mkChunkEvent]) (by simp [mkChunkEvent])]
  simp only [translateTextContent, (textParts_single eid t ht).1]
  simp [mkChunkEvent, hs, ht, string_join_cons, string_join_nil, String.append_empty,
    String.empty_append]

theorem chunk_step_streaming (h : Heap) (threadId runId eid t mid : String)
    (st : EventTranslatorState) (ht : t ≠ "") (hs : st.isStreaming = true)
    (hmid : st.streamingMessageId = some mid) :
    EventTranslator.translate h (mkChunkEvent eid t) threadId runId st =
      ([.textMessageContent mid t],
       { st with currentStreamText := st.currentStreamText ++ t }) := by
  rw [translate_text_only h _ threadId runId st (by simp [mkChunkEvent]) (by simp [mkChunkEvent])
    (by simp [ArpEvent.functionCalls, mkChunkEvent, mkTextPart])
    (by simp [ArpEvent.functionResponses, mkChunkEvent, mkTextPart])
    (by simp [mkChunkEvent]) (by simp [mkChunkEvent]) (by simp [mkChunkEvent])]
  simp only [translateTextContent, (textParts_single eid t ht).1]
  simp [mkChunkEvent, hs, hmid, ht, string_join_cons, string_join_nil,
    String.append_empty, String.empty_append]

theorem close_step (h : Heap) (threadId runId eid t mid : String)
    (st : EventTranslatorState) (ht : t ≠ "") (hs : st.isStreaming = true)
    (hmid : st.streamingMessageId = some mid)
    (hne : st.currentStreamText ++ t ≠ "") :
    EventTranslator.translate h (mkCloseEvent eid t) threadId runId st =
      ([.textMessageContent mid t, .textMessageEnd mid],
       { st with currentStreamText := "", streamingMessageId := none,
                 isStreaming := false,
                 lastStreamedText := some (st.currentStreamText ++ t),
                 lastStreamedRunId := some runId }) := by
  rw [translate_text_only h _ threadId runId st (by simp [mkCloseEvent]) (by simp [mkCloseEvent])
    (by simp [ArpEvent.functionCalls, mkCloseEvent, mkTextPart])
    (by simp [ArpEvent.functionResponses, mkCloseEvent, mkTextPart])
    (by simp [mkCloseEvent]) (by simp [mkCloseEvent]) (by simp [mkCloseEvent])]
  simp only [translateTextContent, (textParts_single eid t ht).2.1]
  simp [mkCloseEvent, hs, hmid, ht, hne, string_join_cons, string_join_nil,
    String.append_empty, String.empty_append]

theorem final_textparts (eid u : String) :
    String.join ((mkFinalEvent eid u).textParts) = u := by
  by_cases hu : u = ""
  · subst hu
    simp [ArpEvent.textParts, mkFinalEvent, mkTextPart, string_join_nil]
  · rw [(textParts_single eid u hu).2.2, string_join_cons, string_join_nil,
      String.append_empty]

theorem final_step_suppressed (h : Heap) (threadId runId eid u : String)
    (st : EventTranslatorState) (hs : st.isStreaming = false)
    (hrun : st.lastStreamedRunId = some runId)
    (htext : st.lastStreamedText = some u) :
    EventTranslator.translate h (mkFinalEvent eid u) threadId runId st =
      ([], { st with currentStreamText := "", lastStreamedText := none,
                     lastStreamedRunId := none }) := by
  rw [translate_text_only h _ threadId runId st (by simp [mkFinalEvent]) (by simp [mkFinalEvent])
    (by simp [ArpEvent.functionCalls, mkFinalEvent, mkTextPart])
    (by simp [ArpEvent.functionResponses, mkFinalEvent, mkTextPart])
    (by simp [mkFinalEvent]) (by simp [mkFinalEvent]) (by simp [mkFinalEvent])]
  have hfp : String.join ((mkFinalEvent eid u).textParts) = u := final_textparts eid u
  unfold translateTextContent
  rw [if_neg (by simp [mkFinalEvent])]
  rw [if_pos (show (mkFinalEvent eid u).finalResponse = true from rfl)]
  simp only [hs, hfp]
  rw [if_pos ⟨hrun, by simp [htext], by rw [htext]⟩]

theorem final_step_emitted (h : Heap) (threadId runId eid u : String)
    (st : EventTranslatorState) (hs : st.isStreaming = false)
    (hnodup : ¬(st.lastStreamedRunId = some runId ∧ st.lastStreamedText ≠ none ∧
      some u = st.lastStreamedText)) :
    EventTranslator.translate h (mkFinalEvent eid u) threadId runId st =
      ([.textMessageStart eid "assistant", .textMessageContent eid u,
        .textMessageEnd eid],
       { st with currentStreamText := "", lastStreamedText := none,
                 lastStreamedRunId := none }) := by
  rw [translate_text_only h _ threadId runId st (by simp [mkFinalEvent]) (by simp [mkFinalEvent])
    (by simp [ArpEvent.functionCalls, mkFinalEvent, mkTextPart])
    (by simp [ArpEvent.functionResponses, mkFinalEvent, mkTextPart])
    (by simp [mkFinalEvent]) (by simp [mkFinalEvent]) (by simp [mkFinalEvent])]
  have hfp : String.join ((mkFinalEvent eid u).textParts) = u := final_textparts eid u
  unfold translateTextContent
  rw [if_neg (by simp [mkFinalEvent])]
  rw [if_pos (show (mkFinalEvent eid u).finalResponse = true from rfl)]
  simp only [hs, hfp]
  rw [if_neg hnodup]
  simp [mkFinalEvent]

theorem runTranslate_append (h : Heap) (threadId runId : String) (l1 l2 : List ArpEvent) :
    ∀ st, runTranslate h threadId runId (l1 ++ l2) st =
      ((runTranslate h threadId runId l1 st).1 ++
        (runTranslate h threadId runId l2 (runTranslate h threadId runId l1 st).2).1,
       (runTranslate h threadId runId l2 (runTranslate h threadId runId l1 st).2).2) := by
  induction l1 with
  | nil => intro st; simp [runTranslate]
  | cons e rest ih =>
      intro st
      simp [runTranslate, ih, List.append_assoc]

theorem feed_chunks (h : Heap) (threadId runId : String) (ts : List String) :
    ∀ (st : EventTranslatorState) (mid : String), (∀ t ∈ ts, t ≠ "") →
      st.isStreaming = true → st.streamingMessageId = some mid →
      runTranslate h threadId runId (ts.map (mkChunkEvent "chunk")) st =
        (ts.map (fun t => .textMessageContent mid t),
         { st with currentStreamText := ts.foldl (· ++ ·) st.currentStreamText }) := by
  induction ts with
  | nil => intro st mid _ _ _; simp [runTranslate]
  | cons t rest ih =>
      intro st mid hts hs hmid
      simp only [List.map_cons, runTranslate]
      rw [chunk_step_streaming h threadId runId "chunk" t mid st (hts t (by simp)) hs hmid]
      rw [ih { st with currentStreamText := st.currentStreamText ++ t } mid
        (fun t2 h2 => hts t2 (by simp [h2])) hs hmid]
      simp

/-- C3: after streaming chunks with accumulated text `T` and a closed
stream, an `is_final_response` event with the same text and run id is
suppressed entirely (so exactly one `START/CONTENT*/END` triplet is emitted
for `T`), while a final event with a different text or run id produces a
full triplet keyed by the ARP event's own id. -/
theorem C3_final_response_dedup (h : Heap) (threadId runId runId2 eid : String)
    (t0 tc u : String) (ts : List String)
    (h0 : t0 ≠ "") (hts : ∀ t ∈ ts, t ≠ "") (hc : tc ≠ "") :
    (runTranslate h threadId runId
        (mkChunkEvent "c0" t0 :: (ts.map (mkChunkEvent "chunk") ++ [mkCloseEvent "cl" tc]))
        initTranslator).1 =
      .textMessageStart (mkUuid 0) "assistant" ::
        .textMessageContent (mkUuid 0) t0 ::
        (ts.map (fun t => .textMessageContent (mkUuid 0) t) ++
          [.textMessageContent (mkUuid 0) tc, .textMessageEnd (mkUuid 0)]) ∧
    (u = String.join (t0 :: (ts ++ [tc])) ∧ runId2 = runId →
      (EventTranslator.translate h (mkFinalEvent eid u) threadId runId2
        (runTranslate h threadId runId
          (mkChunkEvent "c0" t0 :: (ts.map (mkChunkEvent "chunk") ++ [mkCloseEvent "cl" tc]))
          initTranslator).2).1 = []) ∧
    (¬(u = String.join (t0 :: (ts ++ [tc])) ∧ runId2 = runId) →
      (EventTranslator.translate h (mkFinalEvent eid u) threadId runId2
        (runTranslate h threadId runId
          (mkChunkEvent "c0" t0 :: (ts.map (mkChunkEvent "chunk") ++ [mkCloseEvent "cl" tc]))
          initTranslator).2).1 =
        [.textMessageStart eid "assistant", .textMessageContent eid u,
          .textMessageEnd eid]) := by
  have hjoin : String.join (t0 :: (ts ++ [tc])) = (ts.foldl (· ++ ·) t0) ++ tc := by
    simp only [String.join, List.foldl_cons, List.foldl_append, List.foldl_nil,
      String.empty_append]
  have hne : (ts.foldl (· ++ ·) t0) ++ tc ≠ "" :=
    string_append_ne_empty _ _ (string_foldl_ne_empty ts t0 h0)
  have hmain : runTranslate h threadId runId
      (mkChunkEvent "c0" t0 :: (ts.map (mkChunkEvent "chunk") ++ [mkCloseEvent "cl" tc]))
      initTranslator =
      (.textMessageStart (mkUuid 0) "assistant" ::
        .textMessageContent (mkUuid 0) t0 ::
        (ts.map (fun t => .textMessageContent (mkUuid 0) t) ++
          [.textMessageContent (mkUuid 0) tc, .textMessageEnd (mkUuid 0)]),
       ⟨[], none, false, "", some ((ts.foldl (· ++ ·) t0) ++ tc), some runId, [], 1⟩) := by
    simp only [runTranslate, runTranslate_append]
    rw [chunk_step h threadId runId "c0" t0 initTranslator h0 rfl]
    simp only [initTranslator]
    rw [feed_chunks h threadId runId ts
      ⟨[], some (mkUuid 0), true, t0, none, none, [], 0 + 1⟩ (mkUuid 0) hts rfl rfl]
    simp only [runTranslate]
    rw [close_step h threadId runId "cl" tc (mkUuid 0)
      ⟨[], some (mkUuid 0), true, ts.foldl (· ++ ·) t0, none, none, [], 0 + 1⟩ hc rfl rfl hne]
    simp
  rw [hmain]
  refine ⟨rfl, ?_, ?_⟩
  · rintro ⟨hu, hr⟩
    rw [hu, hjoin, hr]
    rw [final_step_suppressed h threadId runId eid _ _ rfl rfl rfl]
  · intro hnd
    rw [final_step_emitted h threadId runId2 eid u _ rfl ?_]
    intro hdup
    apply hnd
    obtain ⟨hd1, _, hd3⟩ := hdup
    simp only at hd1 hd3
    injection hd1 with hd1
    injection hd3 with hd3
    exact ⟨by rw [hd3, hjoin], hd1.symm⟩

theorem C3_final_response_dedup_witness :
    (EventTranslator.translate [] (mkFinalEvent "f" "Hello") "t" "r"
      (runTranslate [] "t" "r"
        (mkChunkEvent "c0" "Hel" ::
          (([] : List String).map (mkChunkEvent "chunk") ++ [mkCloseEvent "cl" "lo"]))
        initTranslator).2).1 = [] :=
  (C3_final_response_dedup [] "t" "r" "r" "f" "Hel" "lo" "Hello" []
    (by decide) (by simp) (by decide)).2.1 ⟨by decide, rfl⟩

theorem scanOpen_append (xs ys : List UipEvent) :
    ∀ b, scanOpen b (xs ++ ys) = scanOpen (scanOpen b xs) ys := by
  induction xs with
  | nil => intro b; rfl
  | cons e rest ih =>
      intro b
      simp only [List.cons_append, scanOpen]
      exact ih _

theorem toolGuardOk_append (xs ys : List UipEvent) :
    ∀ b, toolGuardOk b (xs ++ ys) =
      (toolGuardOk b xs && toolGuardOk (scanOpen b xs) ys) := by
  induction xs with
  | nil => intro b; simp [toolGuardOk, scanOpen]
  | cons e rest ih =>
      intro b
      simp only [List.cons_append, toolGuardOk, scanOpen]
      cases e <;> simp [toolGuardOk, scanOpen, ih, Bool.and_assoc]

theorem scanOpen_no_text (out : List UipEvent)
    (hb : ∀ e ∈ out, isTextBoundaryEvt e = false) : ∀ b, scanOpen b out = b := by
  induction out with
  | nil => intro b; rfl
  | cons e rest ih =>
      intro b
      have he := hb e (by simp)
      have ih2 := ih (fun e2 h2 => hb e2 (by simp [h2]))
      cases e <;> cases b <;> simp_all [isTextBoundaryEvt, scanOpen]

theorem toolGuardOk_no_tool (out : List UipEvent)
    (h : ∀ e ∈ out, isToolCallEvt e = false) : ∀ b, toolGuardOk b out = true := by
  induction out with
  | nil => intro b; rfl
  | cons e rest ih =>
      intro b
      have he := h e (by simp)
      have ih2 := ih (fun e2 h2 => h e2 (by simp [h2]))
      cases e <;> cases b <;> simp_all [isToolCallEvt, toolGuardOk]

theorem toolGuardOk_closed_no_text (out : List UipEvent)
    (hb : ∀ e ∈ out, isTextBoundaryEvt e = false) : toolGuardOk false out = true := by
  induction out with
  | nil => rfl
  | cons e rest ih =>
      have he := hb e (by simp)
      have ih2 := ih (fun e2 h2 => hb e2 (by simp [h2]))
      cases e <;> simp_all [isTextBoundaryEvt, toolGuardOk]

theorem forceClose_guard (st : EventTranslatorState) (hwf : TransWf st) :
    (∀ e ∈ (forceCloseStreamingMessage st).1, isToolCallEvt e = false) ∧
    scanOpen st.isStreaming (forceCloseStreamingMessage st).1 = false ∧
    (forceCloseStreamingMessage st).2.isStreaming = false ∧
    TransWf (forceCloseStreamingMessage st).2 := by
  unfold forceCloseStreamingMessage
  cases hstream : st.isStreaming with
  | false =>
      cases hmid : st.streamingMessageId <;>
        simp_all [scanOpen, TransWf]
  | true =>
      cases hmid : st.streamingMessageId with
      | none => exact absurd hmid (hwf hstream)
      | some mid =>
          simp_all [scanOpen, isToolCallEvt, TransWf]

theorem translateFunctionCalls_facts :
    ∀ (calls : List ArpFunctionCall) (st : EventTranslatorState),
      (∀ e ∈ (translateFunctionCalls calls st).1, isTextBoundaryEvt e = false) ∧
      (translateFunctionCalls calls st).2.isStreaming = st.isStreaming ∧
      (translateFunctionCalls calls st).2.streamingMessageId = st.streamingMessageId := by
  intro calls
  induction calls with
  | nil => intro st; exact ⟨by simp [translateFunctionCalls], rfl, rfl⟩
  | cons fc rest ih =>
      intro st
      simp only [translateFunctionCalls]
      refine ⟨?_, ?_, ?_⟩
      · intro e he
        by_cases hargs : fc.args = []
        · simp [hargs] at he
          rcases he with he | he | he
          · rw [he]; rfl
          · rw [he]; rfl
          · exact (ih _).1 e he
        · simp [hargs] at he
          rcases he with he | he | he | he
          · rw [he]; rfl
          · rw [he]; rfl
          · rw [he]; rfl
          · exact (ih _).1 e he
      · exact (ih _).2.1
      · exact (ih _).2.2

theorem translateFunctionResponse_facts (h : Heap) :
    ∀ (rs : List ArpFunctionResponse) (st : EventTranslatorState),
      (∀ e ∈ (translateFunctionResponse h rs st).1,
        isTextBoundaryEvt e = false ∧ isToolCallEvt e = false) ∧
      (translateFunctionResponse h rs st).2.isStreaming = st.isStreaming ∧
      (translateFunctionResponse h rs st).2.streamingMessageId = st.streamingMessageId := by
  intro rs
  induction rs with
  | nil => intro st; exact ⟨by simp [translateFunctionResponse], rfl, rfl⟩
  | cons r rest ih =>
      intro st
      by_cases hc : st.longRunningToolIds.contains r.id
      · simp only [translateFunctionResponse, hc, if_pos]
        exact ih st
      · have hcf : st.longRunningToolIds.contains r.id = false := by simpa using hc
        simp only [translateFunctionResponse, hcf, Bool.false_eq_true, if_false]
        refine ⟨?_, (ih _).2.1, (ih _).2.2⟩
        intro e he
        rcases List.mem_cons.mp he with he | he
        · rw [he]; exact ⟨rfl, rfl⟩
        · exact (ih _).1 e he

theorem translateTextContent_guard (evt : ArpEvent) (runId : String)
    (st : EventTranslatorState) (hwf : TransWf st) :
    (∀ e ∈ (translateTextContent evt runId st).1, isToolCallEvt e = false) ∧
    scanOpen st.isStreaming (translateTextContent evt runId st).1 =
      (translateTextContent evt runId st).2.isStreaming ∧
    TransWf (translateTextContent evt runId st).2 := by
  unfold translateTextContent
  by_cases hguard : evt.textParts = [] ∧ ¬evt.finalResponse
  · rw [if_pos hguard]
    exact ⟨by simp, rfl, hwf⟩
  · rw [if_neg hguard]
    by_cases hfin : evt.finalResponse = true
    · rw [if_pos hfin]
      cases hstream : st.isStreaming with
      | true =>
          cases hmid : st.streamingMessageId with
          | none => exact absurd hmid (hwf hstream)
          | some mid =>
              simp only [hstream, hmid]
              by_cases hcur : st.currentStreamText = "" <;>
                simp_all [scanOpen, isToolCallEvt, TransWf]
      | false =>
          simp only [hstream]
          split_ifs with hdup
          · simp_all [scanOpen, TransWf]
          · simp_all [scanOpen, isToolCallEvt, TransWf]
    · rw [if_neg hfin]
      cases hstream : st.isStreaming with
      | true =>
          obtain ⟨mid, hmid⟩ : ∃ m, st.streamingMessageId = some m := by
            cases hmidc : st.streamingMessageId with
            | none => exact absurd hmidc (hwf hstream)
            | some m => exact ⟨m, rfl⟩
          simp only [hstream]
          split_ifs <;> simp_all [scanOpen, isToolCallEvt, TransWf]
      | false =>
          simp only [hstream]
          split_ifs <;> simp_all [scanOpen, isToolCallEvt, TransWf]

theorem guard_compose (b2 : Bool) (o1 o2 : List UipEvent) (b1 : Bool)
    (h1g : toolGuardOk b1 o1 = true) (h1s : scanOpen b1 o1 = b2)
    (h2g : toolGuardOk b2 o2 = true) :
    toolGuardOk b1 (o1 ++ o2) = true ∧
    scanOpen b1 (o1 ++ o2) = scanOpen b2 o2 := by
  rw [toolGuardOk_append, scanOpen_append, h1s, h1g, h2g]
  simp

theorem translateTextStage_guard (evt : ArpEvent) (runId : String)
    (st : EventTranslatorState) (hwf : TransWf st) :
    (∀ e ∈ (translateTextStage evt runId st).1, isToolCallEvt e = false) ∧
    scanOpen st.isStreaming (translateTextStage evt runId st).1 =
      (translateTextStage evt runId st).2.isStreaming ∧
    TransWf (translateTextStage evt runId st).2 := by
  unfold translateTextStage
  split_ifs with hp
  · exact translateTextContent_guard evt runId st hwf
  · exact ⟨by simp, rfl, hwf⟩

theorem translateCallsStage_guard (evt : ArpEvent) (st : EventTranslatorState)
    (hwf : TransWf st) :
    toolGuardOk st.isStreaming (translateCallsStage evt st).1 = true ∧
    scanOpen st.isStreaming (translateCallsStage evt st).1 =
      (translateCallsStage evt st).2.isStreaming ∧
    TransWf (translateCallsStage evt st).2 := by
  unfold translateCallsStage
  simp only []
  split_ifs with hc
  · obtain ⟨hcg, hcs, hci, hcw⟩ := forceClose_guard st hwf
    obtain ⟨htf, hti, htm⟩ := translateFunctionCalls_facts
      (evt.functionCalls.filter (fun fc => !evt.longRunningToolIds.contains fc.id))
      (forceCloseStreamingMessage st).2
    refine ⟨?_, ?_, ?_⟩
    · rw [toolGuardOk_append, hcs, toolGuardOk_no_tool _ hcg,
        toolGuardOk_closed_no_text _ htf]
      rfl
    · rw [scanOpen_append, hcs, scanOpen_no_text _ htf, hti, hci]
    · intro hcontra
      rw [hti, hci] at hcontra
      cases hcontra
  · exact ⟨by simp [toolGuardOk], by simp [scanOpen], hwf⟩

theorem translateRespStage_guard (h : Heap) (evt : ArpEvent)
    (st : EventTranslatorState) (hwf : TransWf st) :
    (∀ b, toolGuardOk b (translateRespStage h evt st).1 = true) ∧
    (∀ b, scanOpen b (translateRespStage h evt st).1 = b) ∧
    (translateRespStage h evt st).2.isStreaming = st.isStreaming ∧
    TransWf (translateRespStage h evt st).2 := by
  unfold translateRespStage
  simp only []
  split_ifs with hr
  · obtain ⟨hev, hsi, hsm⟩ := translateFunctionResponse_facts h evt.functionResponses st
    refine ⟨?_, ?_, hsi, ?_⟩
    · exact toolGuardOk_no_tool _ (fun e he => (hev e he).2)
    · exact scanOpen_no_text _ (fun e he => (hev e he).1)
    · intro hcontra
      rw [hsi] at hcontra
      rw [hsm]
      exact hwf hcontra
  · exact ⟨fun b => rfl, fun b => rfl, rfl, hwf⟩

theorem translateTrailing_guard (evt : ArpEvent) :
    (∀ b, toolGuardOk b (translateTrailing evt) = true) ∧
    (∀ b, scanOpen b (translateTrailing evt) = b) := by
  have hev : ∀ e ∈ translateTrailing evt,
      isTextBoundaryEvt e = false ∧ isToolCallEvt e = false := by
    intro e he
    unfold translateTrailing at he
    simp only [List.mem_append] at he
    rcases he with (he | he) | he
    · split_ifs at he with hd
      · simp only [List.mem_singleton] at he
        rw [he]; exact ⟨rfl, rfl⟩
      · simp at he
    · split at he
      · simp only [List.mem_singleton] at he
        rw [he]; exact ⟨rfl, rfl⟩
      · simp at he
    · split at he
      · split_ifs at he with ht
        · simp only [List.mem_singleton] at he
          rw [he]; exact ⟨rfl, rfl⟩
        · simp at he
      · simp at he
  exact ⟨toolGuardOk_no_tool _ (fun e he => (hev e he).2),
    scanOpen_no_text _ (fun e he => (hev e he).1)⟩

theorem translate_guard (h : Heap) (evt : ArpEvent) (threadId runId : String)
    (st : EventTranslatorState) (hwf : TransWf st) :
    toolGuardOk st.isStreaming (EventTranslator.translate h evt threadId runId st).1 = true ∧
    scanOpen st.isStreaming (EventTranslator.translate h evt threadId runId st).1 =
      (EventTranslator.translate h evt threadId runId st).2.isStreaming ∧
    TransWf (EventTranslator.translate h evt threadId runId st).2 := by
  unfold EventTranslator.translate
  split_ifs with hauthor
  · exact ⟨rfl, rfl, hwf⟩
  · obtain ⟨h1ev, h1s, h1w⟩ := translateTextStage_guard evt runId st hwf
    obtain ⟨h2g, h2s, h2w⟩ := translateCallsStage_guard evt (translateTextStage evt runId st).2 h1w
    obtain ⟨h3g, h3s, h3i, h3w⟩ := translateRespStage_guard h evt
      (translateCallsStage evt (translateTextStage evt runId st).2).2 h2w
    obtain ⟨h4g, h4s⟩ := translateTrailing_guard evt
    have h1g : toolGuardOk st.isStreaming (translateTextStage evt runId st).1 = true :=
      toolGuardOk_no_tool _ h1ev st.isStreaming
    have c12 := guard_compose _ _ _ _ h1g h1s h2g
    have c123 := guard_compose _ _ _ _ c12.1 (by rw [c12.2, h2s]) (h3g _)
    have c1234 := guard_compose _ _ _ _ c123.1 (by rw [c123.2, h3s _]) (h4g _)
    refine ⟨?_, ?_, h3w⟩
    · simpa using c1234.1
    · have := c1234.2
      rw [h4s] at this
      simpa [h3i] using this

theorem runTranslate_guard (h : Heap) (threadId runId : String) :
    ∀ (events : List ArpEvent) (st : EventTranslatorState), TransWf st →
      toolGuardOk st.isStreaming (runTranslate h threadId runId events st).1 = true ∧
      scanOpen st.isStreaming (runTranslate h threadId runId events st).1 =
        (runTranslate h threadId runId events st).2.isStreaming ∧
      TransWf (runTranslate h threadId runId events st).2 := by
  intro events
  induction events with
  | nil => intro st hwf; exact ⟨rfl, rfl, hwf⟩
  | cons evt rest ih =>
      intro st hwf
      obtain ⟨h1g, h1s, h1w⟩ := translate_guard h evt threadId runId st hwf
      obtain ⟨h2g, h2s, h2w⟩ := ih (EventTranslator.translate h evt threadId runId st).2 h1w
      simp only [runTranslate]
      have c := guard_compose _ _ _ _ h1g h1s h2g
      exact ⟨c.1, by rw [c.2, h2s], h2w⟩

theorem translateFunctionCalls_shape :
    ∀ (calls : List ArpFunctionCall) (st : EventTranslatorState),
      (translateFunctionCalls calls st).1 =
        calls.flatMap (fun fc =>
          [UipEvent.toolCallStart fc.id fc.name none] ++
          (if fc.args ≠ [] then
            [UipEvent.toolCallArgs fc.id (renderJson (Json.obj fc.args))] else []) ++
          [UipEvent.toolCallEnd fc.id]) := by
  intro calls
  induction calls with
  | nil => intro st; rfl
  | cons fc rest ih => intro st; simp [translateFunctionCalls, ih]

/-- C2: over any sequence of ARP events fed through `translate` on one
translator instance, no `TOOL_CALL_START`, `TOOL_CALL_ARGS` or
`TOOL_CALL_END` event ever occurs while a text message stream is open
(i.e. between a `TEXT_MESSAGE_START` and its matching `TEXT_MESSAGE_END`);
non-long-running calls are emitted only after the force-close, as
`TOOL_CALL_START`, then `TOOL_CALL_ARGS` when the args dict is truthy,
then `TOOL_CALL_END`, per call in order. -/
theorem C2_no_tool_call_inside_text (h : Heap) (threadId runId : String)
    (events : List ArpEvent) :
    toolGuardOk false (runTranslate h threadId runId events initTranslator).1 = true ∧
    (∀ (calls : List ArpFunctionCall) (st : EventTranslatorState),
      (translateFunctionCalls calls st).1 =
        calls.flatMap (fun fc =>
          [UipEvent.toolCallStart fc.id fc.name none] ++
          (if fc.args ≠ [] then
            [UipEvent.toolCallArgs fc.id (renderJson (Json.obj fc.args))] else []) ++
          [UipEvent.toolCallEnd fc.id])) :=
  ⟨(runTranslate_guard h threadId runId events initTranslator
      (by intro hc; exact absurd hc (by decide))).1,
    translateFunctionCalls_shape⟩
